import Mathlib

/-!
# Verification of the subsync converter pipeline

This file gives a shallow embedding, in Lean 4, of the parts of the
`subsync` repository that the specification's testable properties talk
about, and proves (or refutes) those properties against the embedding.

Embedded components:

* `NodeDeduplicator.deduplicate` / `generateKey` — keyed collapse of a
  node list (JavaScript `Map` modelled as an association list with
  insert-order preserving `set`, a thrown `TypeError` modelled as `none`).
* `NodeTester.testNodes` final-verdict computation (high-latency demotion).
* `NodeAnalyzer.analyze` country extraction (leftmost case-insensitive
  match of the country-map alternation).
* `generateGroupedNodeFiles` per-node line selection (raw URI reuse vs
  URI synthesis).
* `PlainTextParser` line decoding, `SubscriptionParser.detectFormat`
  and `SubscriptionParser.normalize` (the plain-URI pipeline path).

JavaScript platform primitives the source calls (`parseInt`, `Buffer`
base64, `encodeURIComponent` / `decodeURIComponent`, WHATWG `URL`,
`JSON.parse`) are modelled explicitly below, following their standard
semantics on the value shapes the embedded code feeds them.
-/

/-! ## Node model for the deduplicator

`NodeDeduplicator.deduplicate` reads `server`, `port`, `protocol`,
and (on key collisions) `extra.latency` of its input nodes, and returns
input nodes verbatim.  `DExtra` models the `extra` record with the one
field the deduplicator reads; `extra = none` models a node whose `extra`
property is `undefined`.  `port` is an integer (`NaN`-valued ports never
reach the deduplicator in the embedded pipeline).  `latency = none`
models an absent `extra.latency`.
-/

structure DExtra where
  latency : Option Nat
  deriving DecidableEq, Repr

structure DNode where
  name : String
  server : String
  port : Int
  protocol : String
  extra : Option DExtra
  deriving DecidableEq, Repr

/-- JavaScript truthiness of the `extra.latency` field: `undefined`
(= `none`) and `0` are falsy, every other number is truthy. -/
def latTruthy : Option Nat → Bool
  | some (_ + 1) => true
  | _ => false

/-- Numeric value of a truthy latency (`getD 0`; only used under
`latTruthy`). -/
def latVal (l : Option Nat) : Nat := l.getD 0

/-- Field projection used by `NodeDeduplicator.generateKey`
(`field.split('.').reduce((obj,key) => obj?.[key], node)`), restricted to
the top-level fields the deduplication key mentions; any other path
evaluates to `undefined`, which the template literal renders as the
string `"undefined"`. -/
def getField (n : DNode) : String → String
  | "server" => n.server
  | "port" => toString n.port
  | "protocol" => n.protocol
  | _ => "undefined"

/-- `Array.prototype.join('|')`. -/
def joinPipe : List String → String
  | [] => ""
  | [x] => x
  | x :: xs => x ++ "|" ++ joinPipe xs

/-- `NodeDeduplicator.generateKey(node, fields)`:
`fields.map(f => `${f}:${value}`).join('|')`. -/
def generateKey (n : DNode) (fields : List String) : String :=
  joinPipe (fields.map fun f => f ++ ":" ++ getField n f)

/-- The default `compareFields` of `NodeDeduplicator.deduplicate`. -/
def defaultFields : List String := ["server", "port", "protocol"]

/-- `Map.prototype.get` on the association-list model of a JS `Map`. -/
def mapGet : List (String × DNode) → String → Option DNode
  | [], _ => none
  | (k', v) :: rest, k => if k' = k then some v else mapGet rest k

/-- `Map.prototype.set`: updating an existing key keeps its original
insertion position; a new key is appended at the end. -/
def mapSet : List (String × DNode) → String → DNode → List (String × DNode)
  | [], k, v => [(k, v)]
  | (k', v') :: rest, k, v =>
    if k' = k then (k', v) :: rest else (k', v') :: mapSet rest k v

/-- One iteration of the `for (const node of nodes)` loop of
`NodeDeduplicator.deduplicate`.  `none` models the `TypeError` thrown by
`node.extra.latency` (resp. `existingNode.extra.latency`) when the
corresponding `extra` is `undefined`; the `&&`-chain short-circuits
exactly as in the source. -/
def dedupStep (preferLower : Bool) (fields : List String)
    (m : List (String × DNode)) (node : DNode) :
    Option (List (String × DNode)) :=
  let key := generateKey node fields
  match mapGet m key with
  | none => some (mapSet m key node)
  | some existingNode =>
    if preferLower then
      match node.extra with
      | none => none
      | some ne =>
        if latTruthy ne.latency then
          match existingNode.extra with
          | none => none
          | some ee =>
            if latTruthy ee.latency then
              if latVal ne.latency < latVal ee.latency then
                some (mapSet m key node)
              else
                some m
            else some m
        else some m
    else some m

/-- The loop of `NodeDeduplicator.deduplicate`, threading the `Map`. -/
def dedupFold (preferLower : Bool) (fields : List String) :
    List (String × DNode) → List DNode → Option (List (String × DNode))
  | m, [] => some m
  | m, node :: rest =>
    match dedupStep preferLower fields m node with
    | none => none
    | some m2 => dedupFold preferLower fields m2 rest

/-- `NodeDeduplicator.deduplicate(nodes, { compareFields, preferLower })`:
`Array.from(uniqueNodes.values())` of the final map, or `none` when the
loop throws. -/
def deduplicate (nodes : List DNode) (preferLower : Bool)
    (compareFields : List String) : Option (List DNode) :=
  (dedupFold preferLower compareFields [] nodes).map (·.map Prod.snd)

example :
    deduplicate
      [ ⟨"a", "1.1.1.1", 443, "vmess", some ⟨some 200⟩⟩,
        ⟨"b", "1.1.1.1", 443, "shadowsocks", some ⟨some 100⟩⟩ ]
      true defaultFields =
    some
      [ ⟨"a", "1.1.1.1", 443, "vmess", some ⟨some 200⟩⟩,
        ⟨"b", "1.1.1.1", 443, "shadowsocks", some ⟨some 100⟩⟩ ] := by
  decide

example :
    deduplicate
      [ ⟨"a", "1.1.1.1", 443, "vmess", some ⟨some 200⟩⟩,
        ⟨"b", "1.1.1.1", 443, "vmess", some ⟨some 100⟩⟩ ]
      true defaultFields =
    some [ ⟨"b", "1.1.1.1", 443, "vmess", some ⟨some 100⟩⟩ ] := by
  decide

example :
    deduplicate
      [ ⟨"a", "1.1.1.1", 443, "vmess", some ⟨some 200⟩⟩,
        ⟨"b", "1.1.1.1", 443, "vmess", none⟩ ]
      true defaultFields = none := by
  decide

/-! ### Lemmas about the `Map` model -/

theorem mapGet_eq_none_iff (m : List (String × DNode)) (k : String) :
    mapGet m k = none ↔ k ∉ m.map Prod.fst := by
  induction m with
  | nil => simp [mapGet]
  | cons p rest ih =>
    obtain ⟨k', v⟩ := p
    by_cases h : k' = k
    · subst h; simp [mapGet]
    · simp [mapGet, h, ih, List.mem_cons, Ne.symm h]

theorem mem_of_mapGet_eq_some {m : List (String × DNode)} {k : String}
    {v : DNode} (h : mapGet m k = some v) : (k, v) ∈ m := by
  induction m with
  | nil => simp [mapGet] at h
  | cons p rest ih =>
    obtain ⟨k', v'⟩ := p
    by_cases hk : k' = k
    · subst hk
      simp [mapGet] at h
      subst h
      exact List.mem_cons_self _ _
    · simp [mapGet, hk] at h
      exact List.mem_cons_of_mem _ (ih h)

theorem mem_keys_of_mapGet_eq_some {m : List (String × DNode)} {k : String}
    {v : DNode} (h : mapGet m k = some v) : k ∈ m.map Prod.fst := by
  have := mem_of_mapGet_eq_some h
  exact List.mem_map.mpr ⟨(k, v), this, rfl⟩

theorem mem_mapSet {m : List (String × DNode)} {k : String} {v : DNode}
    {p : String × DNode} (h : p ∈ mapSet m k v) : p ∈ m ∨ p = (k, v) := by
  induction m with
  | nil => simpa [mapSet] using h
  | cons q rest ih =>
    obtain ⟨k', v'⟩ := q
    by_cases hk : k' = k
    · subst hk
      simp [mapSet] at h
      rcases h with h | h
      · right; simp [h]
      · left; exact List.mem_cons_of_mem _ h
    · simp [mapSet, hk, List.mem_cons] at h
      rcases h with h | h
      · left; simp [h]
      · rcases ih h with h' | h'
        · left; exact List.mem_cons_of_mem _ h'
        · right; exact h'

theorem mapSet_map_fst_of_mem {m : List (String × DNode)} {k : String}
    (v : DNode) (h : k ∈ m.map Prod.fst) :
    (mapSet m k v).map Prod.fst = m.map Prod.fst := by
  induction m with
  | nil => simp at h
  | cons q rest ih =>
    obtain ⟨k', v'⟩ := q
    by_cases hk : k' = k
    · subst hk; simp [mapSet]
    · simp only [List.map_cons] at h
      have h' : k ∈ rest.map Prod.fst := by
        rcases List.mem_cons.mp h with h0 | h0
        · exact absurd h0.symm hk
        · exact h0
      simp [mapSet, hk, ih h']

theorem mapSet_of_not_mem {m : List (String × DNode)} {k : String}
    (v : DNode) (h : k ∉ m.map Prod.fst) :
    mapSet m k v = m ++ [(k, v)] := by
  induction m with
  | nil => simp [mapSet]
  | cons q rest ih =>
    obtain ⟨k', v'⟩ := q
    simp only [List.map_cons, List.mem_cons] at h
    push_neg at h
    simp [mapSet, Ne.symm h.1, ih h.2]

theorem entry_eq_of_nodup_keys {m : List (String × DNode)} {k : String}
    {a b : DNode} (hnd : (m.map Prod.fst).Nodup)
    (ha : (k, a) ∈ m) (hb : (k, b) ∈ m) : a = b := by
  induction m with
  | nil => simp at ha
  | cons q rest ih =>
    obtain ⟨k', v'⟩ := q
    simp only [List.map_cons, List.nodup_cons] at hnd
    rcases List.mem_cons.mp ha with ha' | ha'
    · rcases List.mem_cons.mp hb with hb' | hb'
      · have h1 : a = v' := congrArg Prod.snd ha'
        have h2 : b = v' := congrArg Prod.snd hb'
        rw [h1, h2]
      · have hk : k = k' := congrArg Prod.fst ha'
        have hnotin : k ∉ rest.map Prod.fst := by rw [hk]; exact hnd.1
        exact absurd (List.mem_map.mpr ⟨(k, b), hb', rfl⟩) hnotin
    · rcases List.mem_cons.mp hb with hb' | hb'
      · have hk : k = k' := congrArg Prod.fst hb'
        have hnotin : k ∉ rest.map Prod.fst := by rw [hk]; exact hnd.1
        exact absurd (List.mem_map.mpr ⟨(k, a), ha', rfl⟩) hnotin
      · exact ih hnd.2 ha' hb'

/-! ### First-occurrence key order -/

/-- Append a key if it is not present yet (the effect of one loop
iteration on the `Map`'s key sequence). -/
def addKey (ks : List String) (k : String) : List String :=
  if k ∈ ks then ks else ks ++ [k]

/-- Iterated `addKey`; `addKeys [] ks` is the first-occurrence
deduplication of `ks`, i.e. the key sequence of the final `Map`. -/
def addKeys : List String → List String → List String
  | ks, [] => ks
  | ks, k :: rest => addKeys (addKey ks k) rest

theorem subset_addKey (ks : List String) (k : String) : ks ⊆ addKey ks k := by
  unfold addKey
  split
  · exact fun _ h => h
  · exact fun _ h => List.mem_append_left _ h

theorem mem_addKey_self (ks : List String) (k : String) : k ∈ addKey ks k := by
  unfold addKey
  split
  · assumption
  · exact List.mem_append_right _ (List.mem_singleton.mpr rfl)

theorem subset_addKeys (new ks : List String) : ks ⊆ addKeys ks new := by
  induction new generalizing ks with
  | nil => exact fun _ h => h
  | cons k rest ih =>
    intro x hx
    exact ih (addKey ks k) (subset_addKey ks k hx)

theorem mem_addKeys_of_mem {k : String} (new ks : List String)
    (h : k ∈ new) : k ∈ addKeys ks new := by
  induction new generalizing ks with
  | nil => simp at h
  | cons k' rest ih =>
    rcases List.mem_cons.mp h with h' | h'
    · subst h'
      exact subset_addKeys rest _ (mem_addKey_self ks k)
    · exact ih _ h'

theorem addKey_nodup {ks : List String} (h : ks.Nodup) (k : String) :
    (addKey ks k).Nodup := by
  unfold addKey
  split
  · exact h
  · next hk => simpa [List.nodup_append] using ⟨h, hk⟩

theorem addKeys_nodup {ks : List String} (new : List String) (h : ks.Nodup) :
    (addKeys ks new).Nodup := by
  induction new generalizing ks with
  | nil => exact h
  | cons k rest ih => exact ih (addKey_nodup h k)

/-! ### Lemmas about one deduplication step -/

theorem dedupStep_cases {pl : Bool} {f : List String}
    {m : List (String × DNode)} {n : DNode} {m2 : List (String × DNode)}
    (h : dedupStep pl f m n = some m2) :
    m2 = mapSet m (generateKey n f) n ∨ m2 = m := by
  simp only [dedupStep] at h
  split at h
  · exact Or.inl (Option.some.inj h).symm
  · split at h
    · split at h
      · exact absurd h (by simp)
      · split at h
        · split at h
          · exact absurd h (by simp)
          · split at h
            · split at h
              · exact Or.inl (Option.some.inj h).symm
              · exact Or.inr (Option.some.inj h).symm
            · exact Or.inr (Option.some.inj h).symm
        · exact Or.inr (Option.some.inj h).symm
    · exact Or.inr (Option.some.inj h).symm

theorem dedupStep_of_get_none {pl : Bool} {f : List String}
    {m : List (String × DNode)} {n : DNode}
    (h : mapGet m (generateKey n f) = none) :
    dedupStep pl f m n = some (mapSet m (generateKey n f) n) := by
  simp only [dedupStep, h]

theorem dedupStep_keys {pl : Bool} {f : List String}
    {m : List (String × DNode)} {n : DNode} {m2 : List (String × DNode)}
    (h : dedupStep pl f m n = some m2) :
    m2.map Prod.fst = addKey (m.map Prod.fst) (generateKey n f) := by
  rcases hget : mapGet m (generateKey n f) with _ | ex
  · rw [dedupStep_of_get_none hget] at h
    have hm2 := (Option.some.inj h).symm
    have hnot : generateKey n f ∉ m.map Prod.fst :=
      (mapGet_eq_none_iff _ _).mp hget
    rw [hm2, mapSet_of_not_mem _ hnot, addKey, if_neg hnot]
    simp
  · have hmem : generateKey n f ∈ m.map Prod.fst :=
      mem_keys_of_mapGet_eq_some hget
    rcases dedupStep_cases h with h1 | h1
    · rw [h1, mapSet_map_fst_of_mem _ hmem, addKey, if_pos hmem]
    · rw [h1, addKey, if_pos hmem]

theorem dedupStep_values {pl : Bool} {f : List String}
    {m : List (String × DNode)} {n : DNode} {m2 : List (String × DNode)}
    (h : dedupStep pl f m n = some m2) :
    ∀ v ∈ m2.map Prod.snd, v ∈ m.map Prod.snd ∨ v = n := by
  rcases dedupStep_cases h with h1 | h1 <;> subst h1
  · intro v hv
    obtain ⟨p, hp, rfl⟩ := List.mem_map.mp hv
    rcases mem_mapSet hp with hp' | hp'
    · exact Or.inl (List.mem_map.mpr ⟨p, hp', rfl⟩)
    · rw [hp']; right; rfl
  · exact fun v hv => Or.inl hv

/-- Well-formedness of the `Map`: every entry is stored under the key
generated from its value. -/
def KeyWF (f : List String) (m : List (String × DNode)) : Prop :=
  ∀ p ∈ m, p.1 = generateKey p.2 f

theorem dedupStep_wf {pl : Bool} {f : List String}
    {m : List (String × DNode)} {n : DNode} {m2 : List (String × DNode)}
    (hwf : KeyWF f m) (h : dedupStep pl f m n = some m2) : KeyWF f m2 := by
  rcases dedupStep_cases h with h1 | h1 <;> subst h1
  · intro p hp
    rcases mem_mapSet hp with hp' | hp'
    · exact hwf p hp'
    · rw [hp']
  · exact hwf

theorem dedupStep_isSome {pl : Bool} {f : List String}
    {m : List (String × DNode)} {n : DNode}
    (hm : ∀ v ∈ m.map Prod.snd, v.extra.isSome)
    (hn : n.extra.isSome) : (dedupStep pl f m n).isSome := by
  rcases hget : mapGet m (generateKey n f) with _ | ex
  · simp [dedupStep, hget]
  · have hex : ex.extra.isSome :=
      hm ex (List.mem_map.mpr ⟨(generateKey n f, ex), mem_of_mapGet_eq_some hget, rfl⟩)
    rcases hne : n.extra with _ | ne
    · rw [hne] at hn; simp at hn
    · rcases hee : ex.extra with _ | ee
      · rw [hee] at hex; simp at hex
      · cases pl <;> simp only [dedupStep, hget, hne, hee] <;>
          split_ifs <;> simp

theorem dedupStep_throw {f : List String} {m : List (String × DNode)}
    {n : DNode} {ex : DNode}
    (hget : mapGet m (generateKey n f) = some ex) (hne : n.extra = none) :
    dedupStep true f m n = none := by
  simp [dedupStep, hget, hne]

/-! ### Lemmas about the deduplication loop -/

theorem dedupFold_keys {pl : Bool} {f : List String} :
    ∀ {ns : List DNode} {m m2 : List (String × DNode)},
      dedupFold pl f m ns = some m2 →
      m2.map Prod.fst = addKeys (m.map Prod.fst) (ns.map (generateKey · f)) := by
  intro ns
  induction ns with
  | nil =>
    intro m m2 h
    simp only [dedupFold] at h
    rw [← Option.some.inj h]
    simp [addKeys]
  | cons n rest ih =>
    intro m m2 h
    rcases hstep : dedupStep pl f m n with _ | m1
    · simp only [dedupFold, hstep] at h
      exact absurd h (by simp)
    · simp only [dedupFold, hstep] at h
      rw [ih h, dedupStep_keys hstep]
      simp [addKeys]

theorem dedupFold_values {pl : Bool} {f : List String} :
    ∀ {ns : List DNode} {m m2 : List (String × DNode)},
      dedupFold pl f m ns = some m2 →
      ∀ v ∈ m2.map Prod.snd, v ∈ m.map Prod.snd ∨ v ∈ ns := by
  intro ns
  induction ns with
  | nil =>
    intro m m2 h
    simp only [dedupFold] at h
    rw [← Option.some.inj h]
    exact fun v hv => Or.inl hv
  | cons n rest ih =>
    intro m m2 h
    rcases hstep : dedupStep pl f m n with _ | m1
    · simp only [dedupFold, hstep] at h
      exact absurd h (by simp)
    · simp only [dedupFold, hstep] at h
      intro v hv
      rcases ih h v hv with h1 | h1
      · rcases dedupStep_values hstep v h1 with h2 | h2
        · exact Or.inl h2
        · exact Or.inr (by rw [h2]; exact List.mem_cons_self _ _)
      · exact Or.inr (List.mem_cons_of_mem _ h1)

theorem dedupFold_wf {pl : Bool} {f : List String} :
    ∀ {ns : List DNode} {m m2 : List (String × DNode)},
      KeyWF f m → dedupFold pl f m ns = some m2 → KeyWF f m2 := by
  intro ns
  induction ns with
  | nil =>
    intro m m2 hwf h
    simp only [dedupFold] at h
    rw [← Option.some.inj h]
    exact hwf
  | cons n rest ih =>
    intro m m2 hwf h
    rcases hstep : dedupStep pl f m n with _ | m1
    · simp only [dedupFold, hstep] at h
      exact absurd h (by simp)
    · simp only [dedupFold, hstep] at h
      exact ih (dedupStep_wf hwf hstep) h

theorem dedupFold_isSome {pl : Bool} {f : List String} :
    ∀ {ns : List DNode} {m : List (String × DNode)},
      (∀ v ∈ m.map Prod.snd, v.extra.isSome) →
      (∀ n ∈ ns, n.extra.isSome) →
      (dedupFold pl f m ns).isSome := by
  intro ns
  induction ns with
  | nil => intro m _ _; simp [dedupFold]
  | cons n rest ih =>
    intro m hm hns
    have hstep := @dedupStep_isSome pl f m n hm
      (hns n (List.mem_cons_self _ _))
    rcases hs : dedupStep pl f m n with _ | m1
    · rw [hs] at hstep; simp at hstep
    · have hm1 : ∀ v ∈ m1.map Prod.snd, v.extra.isSome := by
        intro v hv
        rcases dedupStep_values hs v hv with h1 | h1
        · exact hm v h1
        · rw [h1]; exact hns n (List.mem_cons_self _ _)
      have := ih hm1 (fun x hx => hns x (List.mem_cons_of_mem _ hx))
      simpa [dedupFold, hs] using this

theorem dedupFold_append {pl : Bool} {f : List String} :
    ∀ (xs : List DNode) {m : List (String × DNode)} {ys : List DNode},
      dedupFold pl f m (xs ++ ys) =
        (dedupFold pl f m xs).bind (fun m' => dedupFold pl f m' ys) := by
  intro xs
  induction xs with
  | nil => intro m ys; simp [dedupFold]
  | cons n rest ih =>
    intro m ys
    rcases hstep : dedupStep pl f m n with _ | m1
    · simp [dedupFold, hstep]
    · simp only [List.cons_append, dedupFold, hstep]
      exact ih

theorem dedupFold_insert_run {pl : Bool} {f : List String} :
    ∀ (q : List (String × DNode)) (m : List (String × DNode)),
      KeyWF f q → (q.map Prod.fst).Nodup →
      (∀ k ∈ q.map Prod.fst, k ∉ m.map Prod.fst) →
      dedupFold pl f m (q.map Prod.snd) = some (m ++ q) := by
  intro q
  induction q with
  | nil => intro m _ _ _; simp [dedupFold]
  | cons p rest ih =>
    intro m hwf hnd hdisj
    obtain ⟨k, v⟩ := p
    have hk : k = generateKey v f := hwf (k, v) (List.mem_cons_self _ _)
    have hknotm : k ∉ m.map Prod.fst :=
      hdisj k (by simp)
    have hget : mapGet m (generateKey v f) = none := by
      rw [← hk]
      exact (mapGet_eq_none_iff _ _).mpr hknotm
    have hstep : dedupStep pl f m v = some (m ++ [(k, v)]) := by
      rw [dedupStep_of_get_none hget, ← hk, mapSet_of_not_mem _ hknotm]
    simp only [List.map_cons, dedupFold, hstep]
    simp only [List.map_cons, List.nodup_cons] at hnd
    have hrest := ih (m ++ [(k, v)])
      (fun p hp => hwf p (List.mem_cons_of_mem _ hp)) hnd.2
      (by
        intro k' hk'
        have h1 : k' ∉ m.map Prod.fst :=
          hdisj k' (by
            simp only [List.map_cons]
            exact List.mem_cons_of_mem _ hk')
        have h2 : k' ≠ k := fun hkk => hnd.1 (hkk ▸ hk')
        simp [List.map_append, h1, h2])
    rw [hrest, List.append_assoc]
    rfl

/-! ### The generated key on the default fields -/

theorem generateKey_default (n : DNode) :
    generateKey n defaultFields =
      "server" ++ ":" ++ n.server ++ "|" ++
        ("port" ++ ":" ++ toString n.port ++ "|" ++
          ("protocol" ++ ":" ++ n.protocol)) := rfl

theorem generateKey_congr {a b : DNode} (hs : a.server = b.server)
    (hp : a.port = b.port) (hpr : a.protocol = b.protocol) :
    generateKey a defaultFields = generateKey b defaultFields := by
  rw [generateKey_default, generateKey_default, hs, hp, hpr]

theorem protocol_eq_of_key_eq {a b : DNode} (hs : a.server = b.server)
    (hp : a.port = b.port)
    (hk : generateKey a defaultFields = generateKey b defaultFields) :
    a.protocol = b.protocol := by
  rw [generateKey_default, generateKey_default, hs, hp] at hk
  have hd := congrArg String.data hk
  simp only [String.data_append, ← List.append_assoc] at hd
  exact String.ext (List.append_cancel_left hd)

/-! ### Claim theorems for the deduplicator -/

/-- **C2.**  With the default options (`compareFields =
[server, port, protocol]`, `preferLower = true`): whenever
`NodeDeduplicator.deduplicate` returns a list, (a) every returned node is
an element of the input list, (b) any two returned nodes that agree on
`server`, `port` and `protocol` are the same node, and (c) two input
nodes sharing `server` and `port` but with different `protocol`s both
survive deduplication. -/
theorem dedup_subset_and_fingerprint_unique :
    (∀ (nodes out : List DNode),
        deduplicate nodes true defaultFields = some out →
        (∀ n ∈ out, n ∈ nodes) ∧
        (∀ a ∈ out, ∀ b ∈ out,
          a.server = b.server → a.port = b.port → a.protocol = b.protocol →
            a = b)) ∧
    (∀ n1 n2 : DNode,
        n1.server = n2.server → n1.port = n2.port →
        n1.protocol ≠ n2.protocol →
        deduplicate [n1, n2] true defaultFields = some [n1, n2]) := by
  constructor
  · intro nodes out h
    obtain ⟨m, hm, hout⟩ := Option.map_eq_some'.mp h
    have hwf : KeyWF defaultFields m :=
      dedupFold_wf (fun p hp => absurd hp (List.not_mem_nil p)) hm
    have hnd : (m.map Prod.fst).Nodup := by
      rw [dedupFold_keys hm]
      exact addKeys_nodup _ List.nodup_nil
    constructor
    · intro n hn
      rcases dedupFold_values hm n (hout ▸ hn) with h1 | h1
      · simp at h1
      · exact h1
    · intro a ha b hb hs hp hpr
      obtain ⟨pa, hpa, hpa2⟩ := List.mem_map.mp (hout ▸ ha)
      obtain ⟨pb, hpb, hpb2⟩ := List.mem_map.mp (hout ▸ hb)
      have hka : pa.1 = generateKey a defaultFields := by
        rw [← hpa2]; exact hwf pa hpa
      have hkb : pb.1 = generateKey b defaultFields := by
        rw [← hpb2]; exact hwf pb hpb
      have hkeq : pa.1 = pb.1 := by
        rw [hka, hkb]; exact generateKey_congr hs hp hpr
      have hma : (pa.1, a) ∈ m := by
        have : pa = (pa.1, a) := by
          rw [← hpa2]
        rw [← this]; exact hpa
      have hmb : (pa.1, b) ∈ m := by
        have : pb = (pa.1, b) := by
          rw [hkeq, ← hpb2]
        rw [← this]; exact hpb
      exact entry_eq_of_nodup_keys hnd hma hmb
  · intro n1 n2 hs hp hpr
    have hkne : generateKey n1 defaultFields ≠ generateKey n2 defaultFields :=
      fun hk => hpr (protocol_eq_of_key_eq hs hp hk)
    simp [deduplicate, dedupFold, dedupStep, mapGet, mapSet, hkne]

/-- Witness for `dedup_subset_and_fingerprint_unique`: the §8 scenario —
two nodes keyed `(1.1.1.1, 443, vmess)` and `(1.1.1.1, 443, shadowsocks)`
both survive. -/
theorem dedup_subset_and_fingerprint_unique_witness :
    deduplicate
      [ ⟨"A", "1.1.1.1", 443, "vmess", some ⟨none⟩⟩,
        ⟨"A", "1.1.1.1", 443, "shadowsocks", some ⟨none⟩⟩ ]
      true defaultFields =
    some
      [ ⟨"A", "1.1.1.1", 443, "vmess", some ⟨none⟩⟩,
        ⟨"A", "1.1.1.1", 443, "shadowsocks", some ⟨none⟩⟩ ] :=
  dedup_subset_and_fingerprint_unique.2
    ⟨"A", "1.1.1.1", 443, "vmess", some ⟨none⟩⟩
    ⟨"A", "1.1.1.1", 443, "shadowsocks", some ⟨none⟩⟩
    rfl rfl (by decide)

/-- **C3.**  Collision policy of `NodeDeduplicator.deduplicate`: on a key
collision where both nodes carry an `extra` record, if `preferLower` is
set and both latencies are truthy the lower-latency node is kept (the
earlier arrival on ties), otherwise the earlier arrival is kept; with
`preferLower` unset the earlier arrival is kept unconditionally.  The
output enumerates the surviving map values in first-insertion key order
(`addKeys [] ·` is the first-occurrence key sequence), and the function
is deterministic (it is a pure function of its input in this model, the
`Map` iteration order being the insertion order). -/
theorem dedup_collision_policy_and_order :
    (∀ (n1 n2 : DNode) (e1 e2 : DExtra),
        n1.extra = some e1 → n2.extra = some e2 →
        generateKey n1 defaultFields = generateKey n2 defaultFields →
        ((latTruthy e2.latency = true → latTruthy e1.latency = true →
            deduplicate [n1, n2] true defaultFields =
              some [if latVal e2.latency < latVal e1.latency then n2 else n1]) ∧
          (¬(latTruthy e2.latency = true ∧ latTruthy e1.latency = true) →
            deduplicate [n1, n2] true defaultFields = some [n1]))) ∧
    (∀ n1 n2 : DNode,
        generateKey n1 defaultFields = generateKey n2 defaultFields →
        deduplicate [n1, n2] false defaultFields = some [n1]) ∧
    (∀ (nodes out : List DNode),
        deduplicate nodes true defaultFields = some out →
        out.map (generateKey · defaultFields) =
          addKeys [] (nodes.map (generateKey · defaultFields))) ∧
    (∀ nodes : List DNode,
        deduplicate nodes true defaultFields =
          deduplicate nodes true defaultFields) := by
  refine ⟨?_, ?_, ?_, fun _ => rfl⟩
  · intro n1 n2 e1 e2 h1 h2 hk
    constructor
    · intro ht2 ht1
      by_cases hlt : latVal e2.latency < latVal e1.latency
      · simp [deduplicate, dedupFold, dedupStep, mapGet, mapSet, h1, h2,
          ← hk, ht1, ht2, hlt]
      · simp [deduplicate, dedupFold, dedupStep, mapGet, mapSet, h1, h2,
          ← hk, ht1, ht2, hlt]
    · intro hnot
      cases ht2 : latTruthy e2.latency with
      | false =>
        simp [deduplicate, dedupFold, dedupStep, mapGet, mapSet, h1, h2,
          ← hk, ht2]
      | true =>
        have ht1 : latTruthy e1.latency = false := by
          cases h : latTruthy e1.latency
          · rfl
          · exact absurd ⟨ht2, h⟩ hnot
        simp [deduplicate, dedupFold, dedupStep, mapGet, mapSet, h1, h2,
          ← hk, ht2, ht1]
  · intro n1 n2 hk
    simp [deduplicate, dedupFold, dedupStep, mapGet, mapSet, ← hk]
  · intro nodes out h
    obtain ⟨m, hm, hout⟩ := Option.map_eq_some'.mp h
    have hwf : KeyWF defaultFields m :=
      dedupFold_wf (fun p hp => absurd hp (List.not_mem_nil p)) hm
    have hkeys := dedupFold_keys hm
    rw [← hout, List.map_map]
    have : m.map ((generateKey · defaultFields) ∘ Prod.snd) = m.map Prod.fst :=
      List.map_congr_left fun p hp => (hwf p hp).symm
    rw [this, hkeys]
    rfl

/-- Witness for `dedup_collision_policy_and_order`: with latencies 200
then 100 on the same key the later, faster node wins; with the second
latency missing the earlier node wins; with `preferLower = false` the
earlier node wins. -/
theorem dedup_collision_policy_and_order_witness :
    deduplicate
      [ ⟨"s", "h", 1, "p", some ⟨some 200⟩⟩, ⟨"f", "h", 1, "p", some ⟨some 100⟩⟩ ]
      true defaultFields = some [⟨"f", "h", 1, "p", some ⟨some 100⟩⟩] ∧
    deduplicate
      [ ⟨"s", "h", 1, "p", some ⟨some 200⟩⟩, ⟨"g", "h", 1, "p", some ⟨none⟩⟩ ]
      true defaultFields = some [⟨"s", "h", 1, "p", some ⟨some 200⟩⟩] ∧
    deduplicate
      [ ⟨"s", "h", 1, "p", some ⟨some 200⟩⟩, ⟨"f", "h", 1, "p", some ⟨some 100⟩⟩ ]
      false defaultFields = some [⟨"s", "h", 1, "p", some ⟨some 200⟩⟩] := by
  refine ⟨?_, ?_, ?_⟩
  · have := ((dedup_collision_policy_and_order.1
      ⟨"s", "h", 1, "p", some ⟨some 200⟩⟩ ⟨"f", "h", 1, "p", some ⟨some 100⟩⟩
      ⟨some 200⟩ ⟨some 100⟩ rfl rfl rfl).1 (by decide) (by decide))
    simpa using this
  · exact (dedup_collision_policy_and_order.1
      ⟨"s", "h", 1, "p", some ⟨some 200⟩⟩ ⟨"g", "h", 1, "p", some ⟨none⟩⟩
      ⟨some 200⟩ ⟨none⟩ rfl rfl rfl).2 (by decide)
  · exact dedup_collision_policy_and_order.2.1
      ⟨"s", "h", 1, "p", some ⟨some 200⟩⟩ ⟨"f", "h", 1, "p", some ⟨some 100⟩⟩ rfl

/-- **C4.**  `NodeDeduplicator.deduplicate` is idempotent: whenever it
returns a list, running it again on that list with the same options
returns the same list. -/
theorem dedup_idempotent :
    ∀ (nodes : List DNode) (pl : Bool) (f : List String) (out : List DNode),
      deduplicate nodes pl f = some out → deduplicate out pl f = some out := by
  intro nodes pl f out h
  obtain ⟨m, hm, hout⟩ := Option.map_eq_some'.mp h
  have hwf : KeyWF f m :=
    dedupFold_wf (fun p hp => absurd hp (List.not_mem_nil p)) hm
  have hnd : (m.map Prod.fst).Nodup := by
    rw [dedupFold_keys hm]
    exact addKeys_nodup _ List.nodup_nil
  have hrun := @dedupFold_insert_run pl f m []
    hwf hnd (by simp)
  rw [← hout]
  simp [deduplicate, hrun]

/-- Witness for `dedup_idempotent` at a concrete two-node input. -/
theorem dedup_idempotent_witness :
    deduplicate [(⟨"A", "1.1.1.1", 443, "vmess", some ⟨some 100⟩⟩ : DNode)]
      true defaultFields =
      some [⟨"A", "1.1.1.1", 443, "vmess", some ⟨some 100⟩⟩] :=
  dedup_idempotent
    [ ⟨"B", "1.1.1.1", 443, "vmess", some ⟨some 200⟩⟩,
      ⟨"A", "1.1.1.1", 443, "vmess", some ⟨some 100⟩⟩ ]
    true defaultFields
    [⟨"A", "1.1.1.1", 443, "vmess", some ⟨some 100⟩⟩] (by decide)

/-- **C10.**  `NodeDeduplicator.deduplicate` (default options) never
throws on inputs whose nodes all carry an `extra` record; an input in
which a node without `extra` collides on the key with an earlier node
makes it throw a `TypeError` (modelled as `none`) instead of returning a
list. -/
theorem dedup_total_iff_extra :
    (∀ nodes : List DNode, (∀ n ∈ nodes, n.extra.isSome) →
        (deduplicate nodes true defaultFields).isSome) ∧
    (∀ (l1 l2 l3 : List DNode) (a b : DNode),
        generateKey a defaultFields = generateKey b defaultFields →
        b.extra = none →
        deduplicate (l1 ++ a :: (l2 ++ b :: l3)) true defaultFields = none) := by
  constructor
  · intro nodes hall
    have := @dedupFold_isSome true defaultFields nodes [] (by simp) hall
    simpa [deduplicate] using this
  · intro l1 l2 l3 a b hk hb
    suffices h : dedupFold true defaultFields [] (l1 ++ a :: (l2 ++ b :: l3)) = none by
      simp [deduplicate, h]
    rw [dedupFold_append]
    rcases h1 : dedupFold true defaultFields [] l1 with _ | m1
    · rfl
    · simp only [Option.some_bind, dedupFold]
      rcases h2 : dedupStep true defaultFields m1 a with _ | m2
      · rfl
      · show dedupFold true defaultFields m2 (l2 ++ b :: l3) = none
        rw [dedupFold_append]
        rcases h3 : dedupFold true defaultFields m2 l2 with _ | m3
        · rfl
        · simp only [Option.some_bind]
          have hmem2 : generateKey a defaultFields ∈ m2.map Prod.fst := by
            rw [dedupStep_keys h2]
            exact mem_addKey_self _ _
          have hmem3 : generateKey b defaultFields ∈ m3.map Prod.fst := by
            rw [dedupFold_keys h3, ← hk]
            exact subset_addKeys _ _ hmem2
          rcases hget : mapGet m3 (generateKey b defaultFields) with _ | ex
          · exact absurd ((mapGet_eq_none_iff _ _).mp hget) (by simpa using hmem3)
          · simp [dedupFold, dedupStep_throw hget hb]

/-- Witness for `dedup_total_iff_extra`: a two-node all-`extra` input
succeeds; a colliding second node without `extra` throws. -/
theorem dedup_total_iff_extra_witness :
    (deduplicate
      [ ⟨"A", "1.1.1.1", 443, "vmess", some ⟨some 100⟩⟩,
        ⟨"B", "2.2.2.2", 443, "vmess", some ⟨none⟩⟩ ]
      true defaultFields).isSome = true ∧
    deduplicate
      [ ⟨"A", "1.1.1.1", 443, "vmess", some ⟨some 100⟩⟩,
        ⟨"B", "1.1.1.1", 443, "vmess", none⟩ ]
      true defaultFields = none := by
  constructor
  · exact dedup_total_iff_extra.1 _ (by decide)
  · have := dedup_total_iff_extra.2 [] [] []
      ⟨"A", "1.1.1.1", 443, "vmess", some ⟨some 100⟩⟩
      ⟨"B", "1.1.1.1", 443, "vmess", none⟩ rfl rfl
    simpa using this

/-! ## NodeTester final verdict (Metrics.js, `testNodes`)

Embedding of the verdict block of `NodeTester.testNodes`:

```
let finalStatus = 'down';
let finalLatency = null;
let finalError = result.error || null;
if (result.status) {
  if (latency < 1000) { finalStatus = 'up'; finalLatency = latency; }
  else { finalStatus = 'down'; finalLatency = null;
         finalError = `延迟过高 (${latency}ms)`; }
}
```

`connOk` is the truthiness of `result.status`, `latencyMs` the elapsed
milliseconds measured by the worker, `resultError` the normalised
`result.error || null`.
-/

structure TestVerdict where
  status : String
  latency : Option Nat
  error : Option String
  deriving DecidableEq, Repr

/-- The final-verdict computation of `NodeTester.testNodes`. -/
def finalizeTest (connOk : Bool) (latencyMs : Nat)
    (resultError : Option String) : TestVerdict :=
  if connOk then
    if latencyMs < 1000 then
      ⟨"up", some latencyMs, resultError⟩
    else
      ⟨"down", none, some ("延迟过高 (" ++ toString latencyMs ++ "ms)")⟩
  else
    ⟨"down", none, resultError⟩

/-- **C7.**  `NodeTester.testNodes` post-condition: a verdict with
status `"up"` records the measured latency and that latency is strictly
below the 1000 ms floor; a successful connectivity check whose elapsed
time is at or above the floor is demoted to `"down"` with the
high-latency error (`延迟过高 (…ms)`, "latency too high") and no
recorded latency. -/
theorem testNodes_high_latency_demotion :
    (∀ (connOk : Bool) (latencyMs : Nat) (resultError : Option String),
        (finalizeTest connOk latencyMs resultError).status = "up" →
        latencyMs < 1000 ∧
          (finalizeTest connOk latencyMs resultError).latency = some latencyMs) ∧
    (∀ (latencyMs : Nat) (resultError : Option String),
        1000 ≤ latencyMs →
        finalizeTest true latencyMs resultError =
          ⟨"down", none, some ("延迟过高 (" ++ toString latencyMs ++ "ms)")⟩) := by
  constructor
  · intro connOk latencyMs resultError h
    cases connOk with
    | false => exact absurd h (by simp [finalizeTest])
    | true =>
      by_cases hlt : latencyMs < 1000
      · exact ⟨hlt, by simp [finalizeTest, hlt]⟩
      · exact absurd h (by simp [finalizeTest, hlt])
  · intro latencyMs resultError h
    simp [finalizeTest, Nat.not_lt.mpr h]

/-- Witness for `testNodes_high_latency_demotion`: a 1500 ms successful
dial is demoted, and a 300 ms `"up"` verdict is below the floor. -/
theorem testNodes_high_latency_demotion_witness :
    (300 < 1000 ∧ (finalizeTest true 300 none).latency = some 300) ∧
    finalizeTest true 1500 none =
      ⟨"down", none, some ("延迟过高 (" ++ toString 1500 ++ "ms)")⟩ :=
  ⟨testNodes_high_latency_demotion.1 true 300 none (by decide),
   testNodes_high_latency_demotion.2 1500 none (by decide)⟩

/-! ## NodeAnalyzer country extraction

`NodeAnalyzer.analyze` extracts a country code from the display name by
matching it against `this.countryRegex`, a case-insensitive alternation
(`new RegExp(`(${keys.join('|')})`, 'i')`) of the keys of
`this.countryMap` in object-literal order, and then looking the matched
text up in the map (`result.countryCode = this.countryMap[countryKey]`,
which is `undefined` — here `none` — when the matched text is not
literally a key, e.g. when it matched with different letter case).

`String.prototype.match` returns the leftmost match; at a given
position, alternatives are tried in the order they appear in the
pattern.  The default country map is transcribed below in source order.
-/

def countryMap : List (String × String) := [
  ("🇺🇸", "US"),
  ("美国", "US"),
  ("United States", "US"),
  ("USA", "US"),
  ("🇭🇰", "HK"),
  ("香港", "HK"),
  ("Hong Kong", "HK"),
  ("🇹🇼", "TW"),
  ("台湾", "TW"),
  ("Taiwan", "TW"),
  ("🇯🇵", "JP"),
  ("日本", "JP"),
  ("Japan", "JP"),
  ("🇸🇬", "SG"),
  ("新加坡", "SG"),
  ("Singapore", "SG"),
  ("🇰🇷", "KR"),
  ("韩国", "KR"),
  ("Korea", "KR"),
  ("🇬🇧", "UK"),
  ("英国", "UK"),
  ("United Kingdom", "UK"),
  ("🇩🇪", "DE"),
  ("德国", "DE"),
  ("Germany", "DE"),
  ("🇫🇷", "FR"),
  ("法国", "FR"),
  ("France", "FR"),
  ("🇮🇳", "IN"),
  ("印度", "IN"),
  ("India", "IN"),
  ("🇷🇺", "RU"),
  ("俄罗斯", "RU"),
  ("Russia", "RU"),
  ("🇨🇦", "CA"),
  ("加拿大", "CA"),
  ("Canada", "CA"),
  ("🇦🇺", "AU"),
  ("澳大利亚", "AU"),
  ("Australia", "AU"),
  ("🇮🇹", "IT"),
  ("意大利", "IT"),
  ("Italy", "IT"),
  ("🇧🇷", "BR"),
  ("巴西", "BR"),
  ("Brazil", "BR"),
  ("🇳🇱", "NL"),
  ("荷兰", "NL"),
  ("Netherlands", "NL"),
  ("🇹🇷", "TR"),
  ("土耳其", "TR"),
  ("Turkey", "TR"),
  ("🇮🇩", "ID"),
  ("印尼", "ID"),
  ("印度尼西亚", "ID"),
  ("Indonesia", "ID"),
  ("🇻🇳", "VN"),
  ("越南", "VN"),
  ("Vietnam", "VN"),
  ("🇹🇭", "TH"),
  ("泰国", "TH"),
  ("Thailand", "TH"),
  ("🇵🇭", "PH"),
  ("菲律宾", "PH"),
  ("Philippines", "PH"),
  ("🇲🇾", "MY"),
  ("马来西亚", "MY"),
  ("Malaysia", "MY"),
  ("🇦🇷", "AR"),
  ("阿根廷", "AR"),
  ("Argentina", "AR"),
  ("🇲🇽", "MX"),
  ("墨西哥", "MX"),
  ("Mexico", "MX"),
  ("🇨🇱", "CL"),
  ("智利", "CL"),
  ("Chile", "CL"),
  ("🇿🇦", "ZA"),
  ("南非", "ZA"),
  ("South Africa", "ZA"),
  ("🇦🇪", "AE"),
  ("阿联酋", "AE"),
  ("United Arab Emirates", "AE"),
  ("UAE", "AE"),
  ("🇮🇱", "IL"),
  ("以色列", "IL"),
  ("Israel", "IL"),
  ("🇨🇭", "CH"),
  ("瑞士", "CH"),
  ("Switzerland", "CH"),
  ("🇸🇪", "SE"),
  ("瑞典", "SE"),
  ("Sweden", "SE"),
  ("🇳🇴", "NO"),
  ("挪威", "NO"),
  ("Norway", "NO"),
  ("🇫🇮", "FI"),
  ("芬兰", "FI"),
  ("Finland", "FI"),
  ("🇩🇰", "DK"),
  ("丹麦", "DK"),
  ("Denmark", "DK"),
  ("🇵🇱", "PL"),
  ("波兰", "PL"),
  ("Poland", "PL"),
  ("🇭🇺", "HU"),
  ("匈牙利", "HU"),
  ("Hungary", "HU"),
  ("🇨🇿", "CZ"),
  ("捷克", "CZ"),
  ("Czech Republic", "CZ"),
  ("🇦🇹", "AT"),
  ("奥地利", "AT"),
  ("Austria", "AT"),
  ("🇮🇪", "IE"),
  ("爱尔兰", "IE"),
  ("Ireland", "IE"),
  ("🇵🇹", "PT"),
  ("葡萄牙", "PT"),
  ("Portugal", "PT"),
  ("🇬🇷", "GR"),
  ("希腊", "GR"),
  ("Greece", "GR"),
  ("🇪🇸", "ES"),
  ("西班牙", "ES"),
  ("Spain", "ES"),
  ("🇧🇪", "BE"),
  ("比利时", "BE"),
  ("Belgium", "BE"),
  ("🇱🇺", "LU"),
  ("卢森堡", "LU"),
  ("Luxembourg", "LU"),
  ("🇮🇸", "IS"),
  ("冰岛", "IS"),
  ("Iceland", "IS"),
  ("🇲🇴", "MO"),
  ("澳门", "MO"),
  ("Macao", "MO"),
  ("🇨🇳", "CN"),
  ("中国", "CN"),
  ("China", "CN")
]

/-- Case-insensitive (`/i`, ASCII case folding) prefix test of a pattern
alternative against the remaining characters of the name. -/
def ciStartsWith : List Char → List Char → Bool
  | [], _ => true
  | _ :: _, [] => false
  | k :: ks, c :: cs => (k.toLower == c.toLower) && ciStartsWith ks cs

/-- The first alternation key matching at this position; returns the
matched text, i.e. the name's own characters (`countryMatch[1]`). -/
def firstKeyAt (chars : List Char) : Option String :=
  countryMap.findSome? fun kv =>
    if ciStartsWith kv.1.data chars then
      some (String.mk (chars.take kv.1.data.length))
    else none

/-- `name.match(this.countryRegex)`: scan positions left to right,
alternation order resolving ties; returns the matched text. -/
def countryScan : List Char → Option String
  | [] => none
  | c :: cs =>
    match firstKeyAt (c :: cs) with
    | some t => some t
    | none => countryScan cs

/-- JavaScript property lookup `this.countryMap[matched]` (exact,
case-sensitive); `none` models `undefined`. -/
def countryMapLookup (k : String) : Option String :=
  (countryMap.find? fun kv => kv.1 = k).map Prod.snd

/-- The country-code extraction step of `NodeAnalyzer.analyze`. -/
def analyzeCountryCode (name : String) : Option String :=
  match countryScan name.data with
  | none => none
  | some matched => countryMapLookup matched

example : analyzeCountryCode "USA node" = some "US" := by decide
example : analyzeCountryCode "usa node" = none := by decide

/-- **C8 (counterexample).**  The bare token `US` is not a key of the
country map (only `🇺🇸`, `美国`, `United States`, `USA` are), so the
display name `"US 01"` — where `US` is a standalone token — yields no
country code, contradicting the claim that it is assigned `"US"`.
Moreover flag containment alone does not force `US` either: the leftmost
alternation match wins, so `"Japan 🇺🇸"` is assigned `"JP"`. -/
theorem analyze_US_token_counterexample :
    analyzeCountryCode "US 01" = none ∧
    analyzeCountryCode "Japan 🇺🇸" = some "JP" := by
  constructor
  · decide
  · decide

/-- **C8 (amended).**  A display name whose leftmost country-map match
is the flag `🇺🇸` is assigned country code `"US"`; in particular this
holds for every name that starts with the flag (it is the first key of
the alternation).  The bare token `US` is not in the map and yields no
country code (see the counterexample). -/
theorem analyze_flag_prefix_US (s : String) :
    analyzeCountryCode ("🇺🇸" ++ s) = some "US" := by
  have hdata : ("🇺🇸" ++ s).data = '🇺' :: '🇸' :: s.data := by
    rw [String.data_append]
    rfl
  unfold analyzeCountryCode
  rw [hdata]
  rfl

/-! ## JavaScript platform helpers: UTF-8, base64 encoding, percent-encoding -/

/-- UTF-8 encoding of one scalar value, as byte values. -/
def utf8EncodeCharNat (c : Char) : List Nat :=
  let n := c.toNat
  if n < 0x80 then [n]
  else if n < 0x800 then [0xC0 + n / 0x40, 0x80 + n % 0x40]
  else if n < 0x10000 then
    [0xE0 + n / 0x1000, 0x80 + (n / 0x40) % 0x40, 0x80 + n % 0x40]
  else
    [0xF0 + n / 0x40000, 0x80 + (n / 0x1000) % 0x40,
      0x80 + (n / 0x40) % 0x40, 0x80 + n % 0x40]

/-- UTF-8 bytes of a string. -/
def utf8Bytes (s : String) : List Nat :=
  s.data.flatMap utf8EncodeCharNat

def base64Chars : List Char :=
  "ABCDEFGHIJKLMNOPQRSTUVWXYZabcdefghijklmnopqrstuvwxyz0123456789+/".data

def b64Char (n : Nat) : Char := base64Chars.getD n 'A'

/-- Standard base64 encoding with padding (Node
`Buffer.from(...).toString('base64')`). -/
def base64EncodeBytes : List Nat → String
  | [] => ""
  | [b1] => String.mk [b64Char (b1 / 4), b64Char (b1 % 4 * 16), '=', '=']
  | [b1, b2] =>
    String.mk [b64Char (b1 / 4), b64Char (b1 % 4 * 16 + b2 / 16),
      b64Char (b2 % 16 * 4), '=']
  | b1 :: b2 :: b3 :: rest =>
    String.mk [b64Char (b1 / 4), b64Char (b1 % 4 * 16 + b2 / 16),
      b64Char (b2 % 16 * 4 + b3 / 64), b64Char (b3 % 64)] ++
      base64EncodeBytes rest

/-- `Buffer.from(str).toString('base64')`. -/
def bufferToBase64 (s : String) : String :=
  base64EncodeBytes (utf8Bytes s)

def hexDigitLower (n : Nat) : Char := "0123456789abcdef".data.getD n '0'

def hexDigitUpper (n : Nat) : Char := "0123456789ABCDEF".data.getD n '0'

/-- `encodeURIComponent` leaves `A–Z a–z 0–9 - _ . ! ~ * ' ( )`
unescaped. -/
def isUriUnreserved (c : Char) : Bool :=
  c.isAlphanum || c = '-' || c = '_' || c = '.' || c = '!' || c = '~' ||
    c = '*' || c = '\'' || c = '(' || c = ')'

/-- JS `encodeURIComponent`: percent-encodes the UTF-8 bytes of every
reserved character, uppercase hex. -/
def encodeURIComponentStr (s : String) : String :=
  String.join (s.data.map fun c =>
    if isUriUnreserved c then String.singleton c
    else String.join ((utf8EncodeCharNat c).map fun b =>
      String.mk ['%', hexDigitUpper (b / 16), hexDigitUpper (b % 16)]))

/-- One character of `JSON.stringify` string escaping. -/
def jsonEscapeChar (c : Char) : String :=
  if c = '"' then "\\\""
  else if c = '\\' then "\\\\"
  else if c = '\x08' then "\\b"
  else if c = '\x09' then "\\t"
  else if c = '\x0a' then "\\n"
  else if c = '\x0c' then "\\f"
  else if c = '\x0d' then "\\r"
  else if c.toNat < 0x20 then
    String.mk ['\\', 'u', '0', '0', hexDigitLower (c.toNat / 16),
      hexDigitLower (c.toNat % 16)]
  else String.singleton c

/-- A `JSON.stringify`d string value, quotes included. -/
def jsonStr (s : String) : String :=
  "\"" ++ String.join (s.data.map jsonEscapeChar) ++ "\""

example : bufferToBase64 "pass" = "cGFzcw==" := by decide
example : encodeURIComponentStr "My Node#1" = "My%20Node%231" := by decide

/-! ## Emitter: per-group URI list lines (`generateGroupedNodeFiles`)

The region-group branch of `generateGroupedNodeFiles` maps every node of
a group to a line: the preserved original URI `node.extra?.raw` when it
is a string with non-blank trim, otherwise a URI synthesized from the
node's fields (vmess / ss / trojan / ssr; every other type yields `''`),
then drops blank lines and joins with `'\n'`.

`GNode` models the node fields this code reads.  String-valued settings
use `""` for an absent (falsy) property, mirroring JS truthiness tests
like `node.settings?.id`; `raw = none` models an absent `extra` or
`extra.raw` (non-string `raw` values behave like `none` by the
`typeof === 'string'` guard and are outside this model).
-/

structure GSettings where
  id : String
  alterId : Int
  network : String
  wsHost : String
  wsPath : String
  tls : Bool
  method : String
  password : String
  sni : String
  allowInsecure : Bool
  protocol : String
  obfs : String
  deriving DecidableEq, Repr

structure GNode where
  name : String
  type : String
  server : String
  port : Int
  settings : Option GSettings
  raw : Option String
  deriving DecidableEq, Repr

/-- JavaScript whitespace for `String.prototype.trim` (the characters
relevant to subscription payloads). -/
def jsWhitespace (c : Char) : Bool :=
  c = ' ' || c = '\t' || c = '\n' || c = '\r' || c = '\x0b' ||
    c = '\x0c' || c = '\xa0'

/-- `String.prototype.trim`, on the character-list view (Lean's own
`String.trim` works on byte positions, which the kernel cannot reduce;
this evaluates identically on the characters above). -/
def jsTrim (s : String) : String :=
  String.mk (((s.data.dropWhile jsWhitespace).reverse.dropWhile
    jsWhitespace).reverse)

/-- `String.prototype.includes`: the needle occurs at some position. -/
def strIncludesAux (needle : List Char) : List Char → Bool
  | [] => needle.isEmpty
  | c :: cs => needle.isPrefixOf (c :: cs) || strIncludesAux needle cs

def strIncludes (s sub : String) : Bool :=
  strIncludesAux sub.data s.data

/-- The country/region prefix table of the region-group branch. -/
def regionLabel (groupName : String) : String :=
  if groupName = "香港" then "🇭🇰 香港 "
  else if groupName = "台湾" then "🇹🇼 台湾 "
  else if groupName = "新加坡" then "🇸🇬 新加坡 "
  else if groupName = "美国" then "🇺🇸 美国 "
  else if groupName = "日本" then "🇯🇵 日本 "
  else if groupName = "其他" then "🌍 其他 "
  else ""

/-- `parseInt(node.port) || 443`. -/
def portOr443 (port : Int) : Int := if port = 0 then 443 else port

/-- `JSON.stringify` of the `vmessInfo` object literal, keys in
construction order. -/
def vmessInfoJson (ps add : String) (port : Int) (id : String) (aid : Int)
    (net host path tls : String) : String :=
  "\x7b\"v\":\"2\",\"ps\":" ++ jsonStr ps ++ ",\"add\":" ++ jsonStr add ++
    ",\"port\":" ++ toString port ++ ",\"id\":" ++ jsonStr id ++
    ",\"aid\":" ++ toString aid ++ ",\"net\":" ++ jsonStr net ++
    ",\"type\":\"none\",\"host\":" ++ jsonStr host ++
    ",\"path\":" ++ jsonStr path ++ ",\"tls\":" ++ jsonStr tls ++ "\x7d"

/-- The URI-synthesis part of the region-group `map` callback (the code
run when `node.extra?.raw` is unusable). -/
def synthesizeUri (groupName : String) (node : GNode) : String :=
  let nodeName :=
    if strIncludes node.name groupName then node.name
    else regionLabel groupName ++ node.name
  match node.settings with
  | some st =>
    if node.type = "vmess" ∧ st.id ≠ "" then
      "vmess://" ++ bufferToBase64 (vmessInfoJson nodeName node.server
        (portOr443 node.port) st.id st.alterId
        (if st.network = "" then "tcp" else st.network) st.wsHost
        (if st.wsPath = "" then "/" else st.wsPath)
        (if st.tls then "tls" else "none"))
    else if node.type = "ss" ∧ st.method ≠ "" ∧ st.password ≠ "" then
      "ss://" ++ bufferToBase64 (st.method ++ ":" ++ st.password) ++ "@" ++
        node.server ++ ":" ++ toString (portOr443 node.port) ++ "#" ++
        encodeURIComponentStr nodeName
    else if node.type = "trojan" ∧ st.password ≠ "" then
      "trojan://" ++ st.password ++ "@" ++ node.server ++ ":" ++
        toString (portOr443 node.port) ++ "?sni=" ++ st.sni ++
        "&allowInsecure=" ++ (if st.allowInsecure then "1" else "0") ++
        "#" ++ encodeURIComponentStr nodeName
    else if node.type = "ssr" then
      "ssr://" ++
        bufferToBase64 (node.server ++ ":" ++ toString (portOr443 node.port)
          ++ ":" ++ (if st.protocol = "" then "origin" else st.protocol)
          ++ ":" ++ (if st.method = "" then "aes-256-cfb" else st.method)
          ++ ":" ++ (if st.obfs = "" then "plain" else st.obfs)
          ++ ":" ++ bufferToBase64 st.password) ++
        "/?remarks=" ++ bufferToBase64 nodeName
    else ""
  | none => ""

/-- The whole region-group `map` callback: reuse `node.extra.raw` when it
is a non-blank string, otherwise synthesize. -/
def nodeLine (groupName : String) (node : GNode) : String :=
  match node.raw with
  | some r => if jsTrim r ≠ "" then r else synthesizeUri groupName node
  | none => synthesizeUri groupName node

/-- The `.filter(raw => raw.trim().length > 0)` stage. -/
def groupFileLines (groupName : String) (nodes : List GNode) : List String :=
  (nodes.map (nodeLine groupName)).filter fun l => jsTrim l != ""

/-- The file content written for a region group
(`…​.join('\n')`, then `fs.writeFileSync`). -/
def groupFileContent (groupName : String) (nodes : List GNode) : String :=
  String.intercalate "\n" (groupFileLines groupName nodes)

/-- **C9 (counterexample).**  A node whose preserved `raw` is the
non-null but blank string `" "` fails the `trim().length > 0` guard: its
line is synthesized instead (here `''`, which the blank-line filter then
drops entirely), so the written group file does not contain the
preserved URI verbatim — the claim's "synthesis only when raw is absent"
is violated by a present-but-blank `raw`. -/
theorem emitter_blank_raw_counterexample :
    (⟨"n", "socks", "example.com", 1080, none, some " "⟩ : GNode).raw =
        some " " ∧
    nodeLine "美国" ⟨"n", "socks", "example.com", 1080, none, some " "⟩ = "" ∧
    groupFileContent "美国"
      [⟨"n", "socks", "example.com", 1080, none, some " "⟩] = "" ∧
    ("" : String) ≠ " " := by
  refine ⟨rfl, by decide, by decide, by decide⟩

/-- **C9 (amended).**  For every node whose preserved original URI
`raw` is a string with non-blank trim, the line mapped for that node in
the per-group URI list equals `raw` verbatim and survives the blank-line
filter into the written file; synthesis happens only when `raw` is
absent, not a string, or blank. -/
theorem emitter_raw_verbatim (g : String) (n : GNode) (r : String)
    (hr : n.raw = some r) (hnb : jsTrim r ≠ "") :
    nodeLine g n = r ∧ ∀ ns, n ∈ ns → r ∈ groupFileLines g ns := by
  have h1 : nodeLine g n = r := by simp [nodeLine, hr, hnb]
  refine ⟨h1, ?_⟩
  intro ns hn
  unfold groupFileLines
  apply List.mem_filter.mpr
  exact ⟨List.mem_map.mpr ⟨n, hn, h1⟩, by simpa [bne_iff_ne] using hnb⟩

/-- Witness for `emitter_raw_verbatim`: a node carrying a raw trojan URI
is emitted verbatim. -/
theorem emitter_raw_verbatim_witness :
    nodeLine "香港" ⟨"n", "trojan", "h.example", 443, none,
        some "trojan://pw@h.example:443#n"⟩ =
      "trojan://pw@h.example:443#n" ∧
    "trojan://pw@h.example:443#n" ∈
      groupFileLines "香港" [⟨"n", "trojan", "h.example", 443, none,
        some "trojan://pw@h.example:443#n"⟩] := by
  have h := emitter_raw_verbatim "香港"
    ⟨"n", "trojan", "h.example", 443, none,
      some "trojan://pw@h.example:443#n"⟩
    "trojan://pw@h.example:443#n" rfl (by decide)
  exact ⟨h.1, h.2 _ (List.mem_singleton.mpr rfl)⟩

/-! ## JavaScript platform helpers: parseInt, base64 decoding, splits -/

/-- JS `parseInt(s)` (radix auto-detected: `0x` prefix means hex),
`none` modelling `NaN`. -/
def parseIntJS (s : String) : Option Int :=
  let l := s.data.dropWhile jsWhitespace
  let (sign, l) : Int × List Char :=
    match l with
    | '-' :: rest => (-1, rest)
    | '+' :: rest => (1, rest)
    | _ => (1, l)
  match l with
  | '0' :: 'x' :: rest => parseHexDigits sign rest
  | '0' :: 'X' :: rest => parseHexDigits sign rest
  | _ => parseDecDigits sign l
where
  parseDecDigits (sign : Int) (l : List Char) : Option Int :=
    let ds := l.takeWhile Char.isDigit
    if ds.isEmpty then none
    else some (sign * Int.ofNat (ds.foldl (fun a c => a * 10 + (c.toNat - 48)) 0))
  parseHexDigits (sign : Int) (l : List Char) : Option Int :=
    let isHex : Char → Bool := fun c =>
      c.isDigit || ('a' ≤ c && c ≤ 'f') || ('A' ≤ c && c ≤ 'F')
    let hv : Char → Nat := fun c =>
      if c.isDigit then c.toNat - 48
      else if 'a' ≤ c && c ≤ 'f' then c.toNat - 87
      else c.toNat - 55
    let ds := l.takeWhile isHex
    if ds.isEmpty then none
    else some (sign * Int.ofNat (ds.foldl (fun a c => a * 16 + hv c) 0))

/-- Sextet value of a base64 alphabet character (`none` for characters
outside the alphabet, which Node's tolerant decoder skips). -/
def b64Val (c : Char) : Option Nat :=
  if 'A' ≤ c && c ≤ 'Z' then some (c.toNat - 65)
  else if 'a' ≤ c && c ≤ 'z' then some (c.toNat - 97 + 26)
  else if c.isDigit then some (c.toNat - 48 + 52)
  else if c = '+' then some 62
  else if c = '/' then some 63
  else none

/-- Pack base64 sextets into bytes (groups of four; a trailing pair
yields one byte, a trailing triple two bytes, a lone sextet nothing). -/
def b64Pack : List Nat → List Nat
  | s1 :: s2 :: s3 :: s4 :: rest =>
    (s1 * 4 + s2 / 16) :: (s2 % 16 * 16 + s3 / 4) :: (s3 % 4 * 64 + s4) ::
      b64Pack rest
  | [s1, s2, s3] => [s1 * 4 + s2 / 16, s2 % 16 * 16 + s3 / 4]
  | [s1, s2] => [s1 * 4 + s2 / 16]
  | _ => []

/-- Lenient UTF-8 decoding (Node `buffer.toString('utf-8')`): invalid
sequences decode to U+FFFD, one byte at a time. -/
def utf8DecodeLenient : Nat → List Nat → List Char
  | 0, _ => []
  | _, [] => []
  | fuel + 1, b :: rest =>
    if b < 0x80 then Char.ofNat b :: utf8DecodeLenient fuel rest
    else if 0xC2 ≤ b && b < 0xE0 then
      match rest with
      | b2 :: rest2 =>
        if 0x80 ≤ b2 && b2 < 0xC0 then
          Char.ofNat ((b - 0xC0) * 0x40 + (b2 - 0x80)) ::
            utf8DecodeLenient fuel rest2
        else '�' :: utf8DecodeLenient fuel rest
      | [] => ['�']
    else if 0xE0 ≤ b && b < 0xF0 then
      match rest with
      | b2 :: b3 :: rest3 =>
        if (0x80 ≤ b2 && b2 < 0xC0) && (0x80 ≤ b3 && b3 < 0xC0) then
          Char.ofNat ((b - 0xE0) * 0x1000 + (b2 - 0x80) * 0x40 + (b3 - 0x80)) ::
            utf8DecodeLenient fuel rest3
        else '�' :: utf8DecodeLenient fuel rest
      | _ => ['�']
    else if 0xF0 ≤ b && b < 0xF5 then
      match rest with
      | b2 :: b3 :: b4 :: rest4 =>
        if (0x80 ≤ b2 && b2 < 0xC0) && (0x80 ≤ b3 && b3 < 0xC0) &&
            (0x80 ≤ b4 && b4 < 0xC0) then
          Char.ofNat ((b - 0xF0) * 0x40000 + (b2 - 0x80) * 0x1000 +
              (b3 - 0x80) * 0x40 + (b4 - 0x80)) ::
            utf8DecodeLenient fuel rest4
        else '�' :: utf8DecodeLenient fuel rest
      | _ => ['�']
    else '�' :: utf8DecodeLenient fuel rest

/-- `Buffer.from(str, 'base64').toString('utf-8')`: tolerant base64
decoding (non-alphabet characters, `=` included, are skipped) followed
by lenient UTF-8 decoding.  It never throws. -/
def decodeBase64Tolerant (s : String) : String :=
  let bytes := b64Pack (s.data.filterMap b64Val)
  String.mk (utf8DecodeLenient (bytes.length + 1) bytes)

example : decodeBase64Tolerant "cGFzcw==" = "pass" := by decide
example :
    decodeBase64Tolerant
        "ZXhhbXBsZS5jb206NzAwMDA6b3JpZ2luOmFlcy0xMjgtZ2NtOnBsYWluOmNHRnpjdz09"
      = "example.com:70000:origin:aes-128-gcm:plain:cGFzcw==" := by decide

/-- Split before/after the first occurrence of a character
(`none` after = the character does not occur). -/
def splitFirstChar (c : Char) : List Char → List Char × Option (List Char)
  | [] => ([], none)
  | x :: xs =>
    if x = c then ([], some xs)
    else
      let (pre, post) := splitFirstChar c xs
      (x :: pre, post)

/-- Split before/after the last occurrence of a character. -/
def splitLastChar (c : Char) (l : List Char) : Option (List Char × List Char) :=
  match splitFirstChar c l.reverse with
  | (_, none) => none
  | (revPost, some revPre) => some (revPre.reverse, revPost.reverse)

/-- `String.prototype.split` with a single-character separator (fuelled
recursion; each separator consumes at least one character, so
`l.length` fuel always suffices). -/
def splitAllCharAux (c : Char) : Nat → List Char → List (List Char)
  | 0, l => [l]
  | fuel + 1, l =>
    match splitFirstChar c l with
    | (pre, none) => [pre]
    | (pre, some post) => pre :: splitAllCharAux c fuel post

def splitAllChar (c : Char) (l : List Char) : List (List Char) :=
  splitAllCharAux c l.length l

/-! ## Percent decoding, `URLSearchParams`, and the WHATWG `URL` model -/

def hexVal (c : Char) : Option Nat :=
  if '0' ≤ c && c ≤ '9' then some (c.toNat - 48)
  else if 'A' ≤ c && c ≤ 'F' then some (c.toNat - 55)
  else if 'a' ≤ c && c ≤ 'f' then some (c.toNat - 87)
  else none

/-- ECMA-262 `decodeURIComponent`: `%XX` escape sequences are decoded,
multi-byte UTF-8 characters must be contiguous escape sequences;
malformed input raises `URIError` (`none`). -/
def decodeURIAux : Nat → List Char → Option (List Char)
  | 0, _ => none
  | _, [] => some []
  | fuel + 1, '%' :: h1 :: h2 :: rest => do
    let v1 ← hexVal h1
    let v2 ← hexVal h2
    let b := v1 * 16 + v2
    if b < 0x80 then (decodeURIAux fuel rest).map (Char.ofNat b :: ·)
    else if 0xC0 ≤ b && b < 0xE0 then
      match rest with
      | '%' :: h3 :: h4 :: rest2 => do
        let v3 ← hexVal h3
        let v4 ← hexVal h4
        let b2 := v3 * 16 + v4
        if 0x80 ≤ b2 && b2 < 0xC0 then
          (decodeURIAux fuel rest2).map
            (Char.ofNat ((b - 0xC0) * 0x40 + (b2 - 0x80)) :: ·)
        else none
      | _ => none
    else if 0xE0 ≤ b && b < 0xF0 then
      match rest with
      | '%' :: h3 :: h4 :: '%' :: h5 :: h6 :: rest3 => do
        let v3 ← hexVal h3
        let v4 ← hexVal h4
        let v5 ← hexVal h5
        let v6 ← hexVal h6
        let b2 := v3 * 16 + v4
        let b3 := v5 * 16 + v6
        if (0x80 ≤ b2 && b2 < 0xC0) && (0x80 ≤ b3 && b3 < 0xC0) then
          (decodeURIAux fuel rest3).map
            (Char.ofNat ((b - 0xE0) * 0x1000 + (b2 - 0x80) * 0x40 +
              (b3 - 0x80)) :: ·)
        else none
      | _ => none
    else if 0xF0 ≤ b && b < 0xF5 then
      match rest with
      | '%' :: h3 :: h4 :: '%' :: h5 :: h6 :: '%' :: h7 :: h8 :: rest4 => do
        let v3 ← hexVal h3
        let v4 ← hexVal h4
        let v5 ← hexVal h5
        let v6 ← hexVal h6
        let v7 ← hexVal h7
        let v8 ← hexVal h8
        let b2 := v3 * 16 + v4
        let b3 := v5 * 16 + v6
        let b4 := v7 * 16 + v8
        if (0x80 ≤ b2 && b2 < 0xC0) && (0x80 ≤ b3 && b3 < 0xC0) &&
            (0x80 ≤ b4 && b4 < 0xC0) then
          (decodeURIAux fuel rest4).map
            (Char.ofNat ((b - 0xF0) * 0x40000 + (b2 - 0x80) * 0x1000 +
              (b3 - 0x80) * 0x40 + (b4 - 0x80)) :: ·)
        else none
      | _ => none
    else none
  | _ + 1, '%' :: _ => none
  | fuel + 1, c :: rest => (decodeURIAux fuel rest).map (c :: ·)

def decodeURIComponentStr (s : String) : Option String :=
  (decodeURIAux (s.data.length + 1) s.data).map String.mk

example : decodeURIComponentStr "My%20Node" = some "My Node" := by decide
example : decodeURIComponentStr "p%40ss%21" = some "p@ss!" := by decide
example : decodeURIComponentStr "a%zz" = none := by decide

/-- Byte sequence of an `application/x-www-form-urlencoded` token:
`+` is a space, malformed `%` sequences pass through literally. -/
def formBytes : Nat → List Char → List Nat
  | 0, _ => []
  | _, [] => []
  | fuel + 1, '+' :: rest => 0x20 :: formBytes fuel rest
  | fuel + 1, '%' :: h1 :: h2 :: rest =>
    match hexVal h1, hexVal h2 with
    | some v1, some v2 => (v1 * 16 + v2) :: formBytes fuel rest
    | _, _ => utf8EncodeCharNat '%' ++ formBytes fuel (h1 :: h2 :: rest)
  | fuel + 1, c :: rest => utf8EncodeCharNat c ++ formBytes fuel rest

/-- `application/x-www-form-urlencoded` decoding of one token (never
throws; invalid UTF-8 becomes U+FFFD). -/
def formDecodeStr (l : List Char) : String :=
  let bytes := formBytes (l.length + 1) l
  String.mk (utf8DecodeLenient (bytes.length + 1) bytes)

/-- `URLSearchParams.prototype.get`: first pair whose decoded name
matches; `none` is JS `null`. -/
def searchParamsGet (query : String) (key : String) : Option String :=
  ((splitAllChar '&' query.data).filter (· ≠ [])).findSome? fun p =>
    let (n, v) := splitFirstChar '=' p
    if formDecodeStr n = key then some (formDecodeStr (v.getD [])) else none

example : searchParamsGet "sni=h.example" "sni" = some "h.example" := by decide
example : searchParamsGet "sni=h.example" "peer" = none := by decide

/-- The WHATWG `URL` components our parsers read. -/
structure JsUrl where
  scheme : String
  username : String
  password : String
  hostname : String
  port : String
  query : String
  hash : String
  deriving DecidableEq, Repr

def isSchemeChar (c : Char) : Bool :=
  c.isAlphanum || c = '+' || c = '-' || c = '.'

/-- Forbidden host code points (WHATWG URL §3.5). -/
def forbiddenHostChar (c : Char) : Bool :=
  c = '\x00' || c = '\t' || c = '\n' || c = '\r' || c = ' ' || c = '#' ||
    c = '/' || c = ':' || c = '<' || c = '>' || c = '?' || c = '@' ||
    c = '[' || c = '\\' || c = ']' || c = '^' || c = '|'

/-- The userinfo percent-encode set (C0 controls, non-ASCII, and
`" # < > ? \x60 \x7b \x7d / : ; = @ [ \ ] ^ |` and space). -/
def isUserinfoEncodeChar (c : Char) : Bool :=
  c.toNat < 0x21 || c.toNat > 0x7E ||
    "\"#<>?`\x7b\x7d/:;=@[\\]^|".data.contains c

/-- The query percent-encode set. -/
def isQueryEncodeChar (c : Char) : Bool :=
  c.toNat < 0x21 || c.toNat > 0x7E || c = '"' || c = '#' || c = '<' || c = '>'

/-- The fragment percent-encode set. -/
def isFragmentEncodeChar (c : Char) : Bool :=
  c.toNat < 0x21 || c.toNat > 0x7E || c = '"' || c = '<' || c = '>' || c = '`'

def pctEncodeChar (c : Char) : String :=
  String.join ((utf8EncodeCharNat c).map fun b =>
    String.mk ['%', hexDigitUpper (b / 16), hexDigitUpper (b % 16)])

/-- Percent-encode the characters selected by `p`, leaving everything
else (existing `%` sequences included) untouched. -/
def encodeWith (p : Char → Bool) (l : List Char) : String :=
  String.join (l.map fun c =>
    if p c then pctEncodeChar c else String.singleton c)

def specialSchemes : List (String × String) :=
  [("http", "80"), ("https", "443"), ("ws", "80"), ("wss", "443"),
    ("ftp", "21")]

/-- `new URL(s)` for the absolute-URL shapes the parsers feed it
(`scheme://[userinfo@]host[:port][/path][?query][#fragment]`, plus the
host-less `scheme:opaque` form).  Returns `none` where the constructor
throws a `TypeError`.  Follows the URL Standard: control/space trimming,
tab/newline stripping, userinfo split at the last `@`, percent-encoding
of userinfo/query/fragment, port validation against 65535, lowercasing
of special-scheme hosts, forbidden-host-code-point validation.  (IPv6
bracket hosts and special-scheme backslash handling are outside this
model; no parser input uses them.) -/
def jsURL (s : String) : Option JsUrl :=
  let input := ((s.data.filter fun c => !(c = '\t' || c = '\n' || c = '\r')
    ).dropWhile (fun c => c.toNat ≤ 0x20)).reverse.dropWhile
      (fun c => c.toNat ≤ 0x20) |>.reverse
  match input with
  | [] => none
  | c0 :: _ =>
    if !c0.isAlpha then none
    else
      match splitFirstChar ':' input with
      | (_, none) => none
      | (schemeChars, some afterColon) =>
        if !schemeChars.all isSchemeChar then none
        else
          let scheme := String.mk (schemeChars.map Char.toLower)
          let isSpecial := (specialSchemes.lookup scheme).isSome
          match afterColon with
          | '/' :: '/' :: rest =>
            let (beforeHash, fragOpt) := splitFirstChar '#' rest
            let (beforeQuery, queryOpt) := splitFirstChar '?' beforeHash
            let authority := (splitFirstChar '/' beforeQuery).1
            let (userinfoOpt, hostport) :=
              match splitLastChar '@' authority with
              | none => (none, authority)
              | some (ui, hp) => (some ui, hp)
            let (username, password) :=
              match userinfoOpt with
              | none => ("", "")
              | some ui =>
                match splitFirstChar ':' ui with
                | (u, none) => (encodeWith isUserinfoEncodeChar u, "")
                | (u, some pw) =>
                  (encodeWith isUserinfoEncodeChar u,
                    encodeWith isUserinfoEncodeChar pw)
            let hostPort? : Option (List Char × String) :=
              match splitLastChar ':' hostport with
              | none => some (hostport, "")
              | some (h, pstr) =>
                if pstr.isEmpty then some (h, "")
                else if !pstr.all Char.isDigit then none
                else
                  let v := pstr.foldl (fun a c => a * 10 + (c.toNat - 48)) 0
                  if v > 65535 then none
                  else if (specialSchemes.lookup scheme) = some (toString v) then
                    some (h, "")
                  else some (h, toString v)
            match hostPort? with
            | none => none
            | some (host, port) =>
              if host.any forbiddenHostChar then none
              else if host.isEmpty && (userinfoOpt.isSome || isSpecial) then none
              else
                let hostname :=
                  if isSpecial then String.mk (host.map Char.toLower)
                  else String.mk host
                some
                  { scheme := scheme, username := username,
                    password := password, hostname := hostname, port := port,
                    query := match queryOpt with
                      | none => ""
                      | some q => encodeWith isQueryEncodeChar q,
                    hash := match fragOpt with
                      | none => ""
                      | some [] => ""
                      | some f => "#" ++ encodeWith isFragmentEncodeChar f }
          | _ =>
            if isSpecial then none
            else
              let (beforeHash, fragOpt) := splitFirstChar '#' afterColon
              let (_, queryOpt) := splitFirstChar '?' beforeHash
              some
                { scheme := scheme, username := "", password := "",
                  hostname := "", port := "",
                  query := match queryOpt with
                    | none => ""
                    | some q => encodeWith isQueryEncodeChar q,
                  hash := match fragOpt with
                    | none => ""
                    | some [] => ""
                    | some f => "#" ++ encodeWith isFragmentEncodeChar f }

example :
    jsURL "trojan://p@ss%21@host.example:443?sni=h.example#My%20Node" =
      some
        { scheme := "trojan", username := "p%40ss%21", password := "",
          hostname := "host.example", port := "443",
          query := "sni=h.example", hash := "#My%20Node" } := by decide

example : jsURL "https://user:pw@Example.COM/path?q=1#f" =
    some
      { scheme := "https", username := "user", password := "pw",
        hostname := "example.com", port := "",
        query := "q=1", hash := "#f" } := by decide

example : (jsURL "trojan://h:99999").isSome = false := by decide

/-! ## More string utilities (JS `split`, `replace`, `startsWith`) -/

def strStartsWith (s p : String) : Bool :=
  p.data.isPrefixOf s.data

/-- Split before/after the first occurrence of a (nonempty) separator
string. -/
def splitFirstList (sep : List Char) : List Char → List Char × Option (List Char)
  | [] => ([], none)
  | c :: cs =>
    if sep.isPrefixOf (c :: cs) then ([], some ((c :: cs).drop sep.length))
    else
      let (pre, post) := splitFirstList sep cs
      (c :: pre, post)

/-- `String.prototype.split` with a string separator. -/
def splitAllStrAux (sep : List Char) : Nat → List Char → List (List Char)
  | 0, l => [l]
  | fuel + 1, l =>
    match splitFirstList sep l with
    | (pre, none) => [pre]
    | (pre, some post) => pre :: splitAllStrAux sep fuel post

def splitAllStr (s sep : String) : List String :=
  (splitAllStrAux sep.data (s.data.length + 1) s.data).map String.mk

/-- `String.prototype.split(/[...]+/)`: split on maximal runs of the
characters selected by `p`. -/
def splitRunsAux (p : Char → Bool) : Nat → List Char → List (List Char)
  | 0, l => [l]
  | fuel + 1, l =>
    let pre := l.takeWhile (fun c => !p c)
    let rest := l.dropWhile (fun c => !p c)
    match rest with
    | [] => [pre]
    | _ => pre :: splitRunsAux p fuel (rest.dropWhile p)

/-- `raw.split(/[\r\n]+/)`. -/
def splitNewlineRuns (s : String) : List String :=
  (splitRunsAux (fun c => c = '\r' || c = '\n') (s.data.length + 1)
    s.data).map String.mk

/-- `String.prototype.replace` with a string pattern: replaces the first
occurrence only. -/
def strReplaceFirst (s pat repl : String) : String :=
  match splitFirstList pat.data s.data with
  | (_, none) => s
  | (pre, some post) => String.mk pre ++ repl ++ String.mk post

/-- `uri.match(/[A-Za-z0-9+\/=]{20,}/)`: some run of at least 20
base64-alphabet characters (`=` included) occurs. -/
def isB64ishChar (c : Char) : Bool :=
  c.isAlphanum || c = '+' || c = '/' || c = '='

def hasLongB64RunAux : Nat → List Char → Bool
  | 0, _ => false
  | _, [] => false
  | fuel + 1, l =>
    let run := l.takeWhile isB64ishChar
    if run.length ≥ 20 then true
    else
      match l.dropWhile isB64ishChar with
      | [] => false
      | _ :: rest => hasLongB64RunAux fuel rest

def hasLongB64Run (s : String) : Bool :=
  hasLongB64RunAux (s.data.length + 1) s.data

/-- JS `a || b` for an optional string `a` (empty string is falsy). -/
def jsOrStr (o : Option String) (d : String) : String :=
  match o with
  | some v => if v = "" then d else v
  | none => d

/-- `url.hash.substring(1) || ''`. -/
def hashBody (url : JsUrl) : String :=
  if url.hash = "" then "" else String.mk (url.hash.data.drop 1)

example : splitAllStr "a:b:c" ":" = ["a", "b", "c"] := by decide
example : splitNewlineRuns "a\r\n\nb\n" = ["a", "b", ""] := by decide
example : strReplaceFirst "ssr://xyz" "ssr://" "" = "xyz" := by decide
example : hasLongB64Run "socks5://dXNlcjpwYXNzd29yZEBleGFtcGxl" = true := by decide
example : hasLongB64Run "socks5://u:p@h:1080#x" = false := by decide

/-! ## `JSON.parse` model

`JVal` models the values `JSON.parse` produces; numbers keep their
source text (`jnum raw`), which is all the embedded code ever needs
(`parseInt` coerces the number through its decimal string form).
Duplicate object keys follow JS semantics (the last occurrence wins,
see `jObjGet`).  `\uXXXX` escapes outside the basic multilingual plane
must form surrogate pairs; lone surrogates decode to U+FFFD here (JS
strings would keep them; no embedded input contains them).
-/

inductive JVal where
  | jnull
  | jbool (b : Bool)
  | jnum (raw : String)
  | jstr (s : String)
  | jarr (xs : List JVal)
  | jobj (fields : List (String × JVal))

def jsonWsChar (c : Char) : Bool :=
  c = ' ' || c = '\t' || c = '\n' || c = '\r'

def skipJsonWs (l : List Char) : List Char :=
  l.dropWhile jsonWsChar

def isHighSurrogate (n : Nat) : Bool := 0xD800 ≤ n && n ≤ 0xDBFF
def isLowSurrogate (n : Nat) : Bool := 0xDC00 ≤ n && n ≤ 0xDFFF

/-- JSON string body (after the opening quote). -/
def parseJStrChars : Nat → List Char → Option (List Char × List Char)
  | 0, _ => none
  | _, [] => none
  | _ + 1, '"' :: rest => some ([], rest)
  | fuel + 1, '\\' :: esc =>
    match esc with
    | '"' :: r => (parseJStrChars fuel r).map fun (cs, r') => ('"' :: cs, r')
    | '\\' :: r => (parseJStrChars fuel r).map fun (cs, r') => ('\\' :: cs, r')
    | '/' :: r => (parseJStrChars fuel r).map fun (cs, r') => ('/' :: cs, r')
    | 'b' :: r => (parseJStrChars fuel r).map fun (cs, r') => ('\x08' :: cs, r')
    | 'f' :: r => (parseJStrChars fuel r).map fun (cs, r') => ('\x0c' :: cs, r')
    | 'n' :: r => (parseJStrChars fuel r).map fun (cs, r') => ('\n' :: cs, r')
    | 'r' :: r => (parseJStrChars fuel r).map fun (cs, r') => ('\r' :: cs, r')
    | 't' :: r => (parseJStrChars fuel r).map fun (cs, r') => ('\t' :: cs, r')
    | 'u' :: h1 :: h2 :: h3 :: h4 :: r => do
      let v1 ← hexVal h1
      let v2 ← hexVal h2
      let v3 ← hexVal h3
      let v4 ← hexVal h4
      let n := ((v1 * 16 + v2) * 16 + v3) * 16 + v4
      if isHighSurrogate n then
        match r with
        | '\\' :: 'u' :: g1 :: g2 :: g3 :: g4 :: r2 => do
          let w1 ← hexVal g1
          let w2 ← hexVal g2
          let w3 ← hexVal g3
          let w4 ← hexVal g4
          let m := ((w1 * 16 + w2) * 16 + w3) * 16 + w4
          if isLowSurrogate m then
            (parseJStrChars fuel r2).map fun (cs, r') =>
              (Char.ofNat (0x10000 + (n - 0xD800) * 0x400 + (m - 0xDC00)) :: cs, r')
          else (parseJStrChars fuel r).map fun (cs, r') => ('�' :: cs, r')
        | _ => (parseJStrChars fuel r).map fun (cs, r') => ('�' :: cs, r')
      else if isLowSurrogate n then
        (parseJStrChars fuel r).map fun (cs, r') => ('�' :: cs, r')
      else
        (parseJStrChars fuel r).map fun (cs, r') => (Char.ofNat n :: cs, r')
    | _ => none
  | fuel + 1, c :: rest =>
    if c.toNat < 0x20 then none
    else (parseJStrChars fuel rest).map fun (cs, r') => (c :: cs, r')

/-- JSON number token, kept as source text. -/
def parseJNum (l : List Char) : Option (String × List Char) :=
  let (neg, l1) : List Char × List Char :=
    match l with
    | '-' :: r => (['-'], r)
    | _ => ([], l)
  let intPart? : Option (List Char × List Char) :=
    match l1 with
    | '0' :: r => some (['0'], r)
    | c :: r =>
      if '1' ≤ c && c ≤ '9' then
        some (c :: r.takeWhile Char.isDigit, r.dropWhile Char.isDigit)
      else none
    | [] => none
  match intPart? with
  | none => none
  | some (ip, l2) =>
    let (fp, l3) : List Char × List Char :=
      match l2 with
      | '.' :: r =>
        let ds := r.takeWhile Char.isDigit
        if ds.isEmpty then ([], '.' :: r)
        else ('.' :: ds, r.dropWhile Char.isDigit)
      | _ => ([], l2)
    if fp.isEmpty && (match l2 with | '.' :: _ => true | _ => false) then none
    else
      match l3 with
      | e :: r =>
        if e = 'e' || e = 'E' then
          let (sgn, r1) : List Char × List Char :=
            match r with
            | '+' :: rr => (['+'], rr)
            | '-' :: rr => (['-'], rr)
            | _ => ([], r)
          let ds := r1.takeWhile Char.isDigit
          if ds.isEmpty then none
          else some (String.mk (neg ++ ip ++ fp ++ e :: sgn ++ ds),
            r1.dropWhile Char.isDigit)
        else some (String.mk (neg ++ ip ++ fp), l3)
      | [] => some (String.mk (neg ++ ip ++ fp), l3)

mutual

/-- One JSON value (leading whitespace allowed). -/
def parseJVal : Nat → List Char → Option (JVal × List Char)
  | 0, _ => none
  | fuel + 1, l =>
    match skipJsonWs l with
    | 'n' :: 'u' :: 'l' :: 'l' :: rest => some (.jnull, rest)
    | 't' :: 'r' :: 'u' :: 'e' :: rest => some (.jbool true, rest)
    | 'f' :: 'a' :: 'l' :: 's' :: 'e' :: rest => some (.jbool false, rest)
    | '"' :: rest =>
      (parseJStrChars (rest.length + 1) rest).map fun (cs, r) =>
        (.jstr (String.mk cs), r)
    | '[' :: rest =>
      (match skipJsonWs rest with
      | ']' :: r => some (.jarr [], r)
      | rest2 => (parseJElems fuel rest2).map fun (xs, r) => (.jarr xs, r))
    | '\x7b' :: rest =>
      (match skipJsonWs rest with
      | '\x7d' :: r => some (.jobj [], r)
      | rest2 => (parseJMembers fuel rest2).map fun (ms, r) => (.jobj ms, r))
    | rest => (parseJNum rest).map fun (raw, r) => (.jnum raw, r)

/-- `value (',' value)* ']'`. -/
def parseJElems : Nat → List Char → Option (List JVal × List Char)
  | 0, _ => none
  | fuel + 1, l => do
    let (v, rest) ← parseJVal fuel l
    match skipJsonWs rest with
    | ',' :: rest2 => do
      let (xs, r) ← parseJElems fuel rest2
      pure (v :: xs, r)
    | ']' :: rest2 => pure ([v], rest2)
    | _ => none

/-- `string ':' value (',' member)* '\x7d'`. -/
def parseJMembers : Nat → List Char → Option (List (String × JVal) × List Char)
  | 0, _ => none
  | fuel + 1, l =>
    match skipJsonWs l with
    | '"' :: rest => do
      let (kcs, r1) ← parseJStrChars (rest.length + 1) rest
      match skipJsonWs r1 with
      | ':' :: r2 => do
        let (v, r3) ← parseJVal fuel r2
        match skipJsonWs r3 with
        | ',' :: r4 => do
          let (ms, r5) ← parseJMembers fuel r4
          pure ((String.mk kcs, v) :: ms, r5)
        | '\x7d' :: r4 => pure ([(String.mk kcs, v)], r4)
        | _ => none
      | _ => none
    | _ => none

end

/-- `JSON.parse` (throwing modelled as `none`). -/
def jsonParse (s : String) : Option JVal :=
  match parseJVal (3 * s.data.length + 3) s.data with
  | some (v, rest) => if (skipJsonWs rest).isEmpty then some v else none
  | none => none

example : (jsonParse "ssr://abc").isSome = false := by decide
example :
    (jsonParse "\x7b\"a\": [1, -2.5e3], \"b\": null\x7d").isSome = true := by
  decide
example : (jsonParse "\x7b\"a\": 1,\x7d").isSome = false := by decide

/-! ## JSON value helpers (JS semantics) -/

/-- `data.key` on a parsed JSON value (objects keep the last duplicate
key, anything else has no properties). -/
def jObjGet : JVal → String → Option JVal
  | .jobj fields, k => (fields.reverse.find? fun kv => kv.1 == k).map Prod.snd
  | _, _ => none

/-- A JSON number literal denoting zero (all mantissa digits `0`). -/
def jnumIsZero (raw : String) : Bool :=
  ((raw.data.takeWhile fun c => !(c = 'e' || c = 'E')).filter
    Char.isDigit).all (· = '0')

/-- JS truthiness of a `JSON.parse` value. -/
def jTruthy : JVal → Bool
  | .jnull => false
  | .jbool b => b
  | .jnum raw => !jnumIsZero raw
  | .jstr s => s ≠ ""
  | .jarr _ => true
  | .jobj _ => true

/-- `a || b` on JSON values. -/
def jvOrV (a : Option JVal) (b : JVal) : JVal :=
  match a with
  | some v => if jTruthy v then v else b
  | none => b

/-- String coercion of a JSON value as it lands in a string field
(number formatting of exotic literals such as `1e3` is approximated by
their source text; arrays/objects are outside the coercion model). -/
def jvToString : JVal → String
  | .jstr s => s
  | .jnum raw => raw
  | .jbool b => if b then "true" else "false"
  | .jnull => "null"
  | .jarr _ => ""
  | .jobj _ => ""

/-- `parseInt(v)` on a JSON value. -/
def jvParseInt : JVal → Option Int
  | .jnum raw => parseIntJS raw
  | .jstr s => parseIntJS s
  | _ => none

/-- `v === 'lit'`. -/
def jvIsStr (v : JVal) (lit : String) : Bool :=
  match v with
  | .jstr s => s = lit
  | _ => false

/-! ## PlainTextParser: the candidate-node model and the six decoders

`PNode` is the candidate object a decoder returns (before
`SubscriptionParser.normalize`).  `JsPort` keeps the JS string/number
distinction of the `port` field (`num none` is `NaN`); `extraRaw` is
`extra.raw` when it is a string (plain `parseVmess` stores the decoded
JSON object there, modelled as `none`).  The `id` field added later by
`normalize` (`Math.random()`-based when absent) and the `addedAt`
timestamp are nondeterministic and outside the embedding; no claim
mentions them.
-/

inductive JsPort where
  | num (v : Option Int)
  | str (s : String)
  deriving DecidableEq, Repr

def portTruthy : JsPort → Bool
  | .num (some v) => v ≠ 0
  | .num none => false
  | .str s => s ≠ ""

def portParseInt : JsPort → Option Int
  | .num v => v
  | .str s => parseIntJS s

/-- `${node.port}` in a template literal. -/
def portTemplate : JsPort → String
  | .num (some v) => toString v
  | .num none => "NaN"
  | .str s => s

inductive PSettings where
  | vmessS (id : Option String) (alterId : Option Int)
      (security network wsPath : String) (wsHost : Option String)
      (tls : Bool) (serverName : String)
  | ssS (method : String) (password : Option String)
  | ssrS (method password protocol protocolParam obfs obfsParam : String)
  | trojanS (password sni : String) (allowInsecure : Bool)
  | httpS (username password : String) (tls : Bool)
  | socksS (username password : String)
  | vlessS (id network security sni fp alpn path host encryption flow : String)
  deriving DecidableEq, Repr

structure PNode where
  type : String
  name : String
  server : String
  port : JsPort
  protocol : String
  settings : PSettings
  extraRaw : Option String
  deriving DecidableEq, Repr

/-- `PlainTextParser.parseVmess`: base64 body, JSON config, field map. -/
def parseVmessPlain (uri : String) : Option PNode :=
  let base64Json := strReplaceFirst uri "vmess://" ""
  match jsonParse (decodeBase64Tolerant base64Json) with
  | none => none
  | some data =>
    let g := jObjGet data
    some
      { type := "vmess"
        name := jvToString (jvOrV (g "ps") (jvOrV (g "name") (.jstr "")))
        server := jvToString (jvOrV (g "add")
          (jvOrV (g "host") (jvOrV (g "server") (.jstr ""))))
        port := .num (match g "port" with
          | some v => jvParseInt v
          | none => none)
        protocol := "vmess"
        settings := .vmessS
          ((g "id").map jvToString)
          (jvParseInt (jvOrV (g "aid") (.jnum "0")))
          (jvToString (jvOrV (g "scy") (jvOrV (g "security") (.jstr "auto"))))
          (jvToString (jvOrV (g "net") (.jstr "tcp")))
          (jvToString (jvOrV (g "path") (.jstr "")))
          (match g "host" with
            | some v => if jTruthy v then some (jvToString v) else none
            | none => none)
          (match g "tls" with
            | some v => jvIsStr v "tls"
            | none => false)
          (jvToString (jvOrV (g "sni") (.jstr "")))
        extraRaw := none }

/-- The shared extraction code of `PlainTextParser.parseShadowsocks`
(run on the parsed, or legacy-reconstructed, URL). -/
def ssShared (url : JsUrl) (uri : String) : Option PNode :=
  match decodeURIComponentStr (hashBody url) with
  | none => none
  | some name =>
    let mp : String × Option String :=
      if strIncludes url.username ":" then
        match splitAllStr url.username ":" with
        | m :: p :: _ => (m, some p)
        | [m] => (m, none)
        | [] => ("", none)
      else
        match splitAllStr (decodeBase64Tolerant url.username) ":" with
        | m :: p :: _ => (m, some p)
        | [m] => (m, none)
        | [] => ("", none)
    some
      { type := "ss", name := name, server := url.hostname
        port := .num (parseIntJS url.port), protocol := "shadowsocks"
        settings := .ssS mp.1 mp.2, extraRaw := some uri }

/-- The legacy branch of `PlainTextParser.parseShadowsocks`: regex
`^ss:\/\/([^#]+)(#(.*))?$`, base64-decode, then surgery on the dummy
URL `ss://user:pass@example.com` (`username`/`hostname`/`port`/`hash`
setters follow the URL Standard: values are percent-encoded or
validated, invalid assignments are ignored and keep the dummy's
component — including its `pass` password). -/
def ssLegacyUrl (uri : String) : Option JsUrl :=
  let rest := uri.data.drop 5
  let (bodyChars, hashOpt) := splitFirstChar '#' rest
  if bodyChars.isEmpty then none
  else
    let decoded := decodeBase64Tolerant (String.mk bodyChars)
    if strIncludes decoded "@" then
      let parts := splitAllStr decoded "@"
      let userinfo := parts.getD 0 ""
      let serverParts := splitAllStr (parts.getD 1 "") ":"
      let host0 := serverParts.getD 0 ""
      let hostname :=
        if host0 ≠ "" && !host0.data.any forbiddenHostChar then host0
        else "example.com"
      let portStr :=
        match serverParts[1]? with
        | some p =>
          if p ≠ "" && p.data.all Char.isDigit &&
              p.data.foldl (fun a c => a * 10 + (c.toNat - 48)) 0 ≤ 65535 then
            toString (p.data.foldl (fun a c => a * 10 + (c.toNat - 48)) 0)
          else ""
        | none => ""
      some
        { scheme := "ss"
          username := encodeWith isUserinfoEncodeChar userinfo.data
          password := "pass"
          hostname := hostname
          port := portStr
          query := ""
          hash := match hashOpt with
            | none => ""
            | some [] => ""
            | some f => "#" ++ encodeWith isFragmentEncodeChar f }
    else none

/-- `PlainTextParser.parseShadowsocks`. -/
def parseShadowsocksPlain (uri : String) : Option PNode :=
  match jsURL uri with
  | some url => ssShared url uri
  | none =>
    match ssLegacyUrl uri with
    | none => none
    | some url => ssShared url uri

/-- `PlainTextParser.parseShadowsocksR`. -/
def parseShadowsocksRPlain (uri : String) : Option PNode :=
  let decoded := decodeBase64Tolerant (strReplaceFirst uri "ssr://" "")
  let parts := splitAllStr decoded "/?"
  let mainParts := splitAllStr (parts.getD 0 "") ":"
  if mainParts.length < 6 then none
  else
    let prm : String × String × String :=
      match parts[1]? with
      | some pp =>
        if pp = "" then ("", "", "")
        else
          let dec : String → String := fun k =>
            match searchParamsGet pp k with
            | some v => if v = "" then "" else decodeBase64Tolerant v
            | none => ""
          (dec "obfsparam", dec "protoparam", dec "remarks")
      | none => ("", "", "")
    some
      { type := "ssr", name := prm.2.2, server := mainParts.getD 0 ""
        port := .num (parseIntJS (mainParts.getD 1 ""))
        protocol := "shadowsocksr"
        settings := .ssrS (mainParts.getD 3 "")
          (decodeBase64Tolerant (mainParts.getD 5 ""))
          (mainParts.getD 2 "") prm.2.1 (mainParts.getD 4 "") prm.1
        extraRaw := some uri }

/-- `PlainTextParser.parseTrojan`: no pre-encoding, the password is the
URL username verbatim (still percent-encoded). -/
def parseTrojanPlain (uri : String) : Option PNode :=
  match jsURL uri with
  | none => none
  | some url =>
    match decodeURIComponentStr (hashBody url) with
    | none => none
    | some name =>
      let port := if url.port = "" then "443" else url.port
      let sni := jsOrStr (searchParamsGet url.query "sni")
        (jsOrStr (searchParamsGet url.query "peer") "")
      let allowInsecure :=
        searchParamsGet url.query "allowInsecure" == some "1" ||
          searchParamsGet url.query "tls-verification" == some "false"
      some
        { type := "trojan", name := name, server := url.hostname
          port := .num (parseIntJS port), protocol := "trojan"
          settings := .trojanS url.username sni allowInsecure
          extraRaw := some uri }

/-- `PlainTextParser.parseHttp`. -/
def parseHttpPlain (uri : String) : Option PNode :=
  match jsURL uri with
  | none => none
  | some url =>
    match decodeURIComponentStr (hashBody url) with
    | none => none
    | some name =>
      let isHttps := url.scheme = "https"
      let port := if url.port = "" then (if isHttps then "443" else "80")
        else url.port
      some
        { type := if isHttps then "https" else "http", name := name
          server := url.hostname, port := .num (parseIntJS port)
          protocol := if isHttps then "https" else "http"
          settings := .httpS url.username url.password isHttps
          extraRaw := some uri }

/-- `PlainTextParser.parseSocks`. -/
def parseSocksPlain (uri : String) : Option PNode :=
  if !(strStartsWith uri "socks://" || strStartsWith uri "socks5://" ||
      strStartsWith uri "sock://") then none
  else if strIncludes uri "dW5kZWZpbmVk" || hasLongB64Run uri then none
  else
    match jsURL uri with
    | none => none
    | some url =>
      if url.hostname = "" || url.port = "" then none
      else
        match decodeURIComponentStr (hashBody url) with
        | none => none
        | some name =>
          let port := if url.port = "" then "1080" else url.port
          some
            { type := "socks", name := name, server := url.hostname
              port := .num (parseIntJS port), protocol := "socks"
              settings := .socksS url.username url.password
              extraRaw := some uri }

/-- `PlainTextParser.parseLine`: prefix dispatch.  There is no
`vless://` branch — such lines fall through to `null`. -/
def parseLine (line : String) : Option PNode :=
  if strStartsWith line "vmess://" then parseVmessPlain line
  else if strStartsWith line "ss://" then parseShadowsocksPlain line
  else if strStartsWith line "ssr://" then parseShadowsocksRPlain line
  else if strStartsWith line "trojan://" then parseTrojanPlain line
  else if strStartsWith line "http://" || strStartsWith line "https://" then
    parseHttpPlain line
  else if strStartsWith line "socks://" || strStartsWith line "socks5://" ||
      strStartsWith line "sock://" then
    parseSocksPlain line
  else none

/-- `PlainTextParser.parse`: split lines, drop blank ones, collect the
non-null decoder results.  The surrounding `try/catch` is dead — no
branch throws — so this function never fails. -/
def plainParse (raw : String) : List PNode :=
  ((splitNewlineRuns raw).filter fun l => jsTrim l != "").filterMap parseLine

/-! ## SubscriptionParser: format detection, normalisation, plain path -/

def uriSchemes : List String :=
  ["vmess://", "ss://", "ssr://", "trojan://", "hysteria2://", "vless://"]

/-- One position of the detection regex
`/(vmess|ss|ssr|trojan|hysteria2|vless):\/\/[^\s]+/` (with backtracking,
the alternation is equivalent to one of the six full prefixes followed
by a non-whitespace character). -/
def protocolUriAtHead (l : List Char) : Bool :=
  uriSchemes.any fun p =>
    p.data.isPrefixOf l &&
      (match l.drop p.data.length with
        | c :: _ => !jsWhitespace c
        | [] => false)

def protocolUriPresentAux : List Char → Bool
  | [] => false
  | c :: cs => protocolUriAtHead (c :: cs) || protocolUriPresentAux cs

/-- `raw.match(regex)` produced at least one match. -/
def protocolUriPresent (s : String) : Bool :=
  protocolUriPresentAux s.data

/-- The base64-envelope test of `detectFormat`: strip whitespace, check
the charset `^[A-Za-z0-9+/=]+$`, decode (the tolerant `Buffer` branch),
and look for a known URI prefix in the decoded text. -/
def detectBase64Envelope (raw : String) : Bool :=
  let cleaned := raw.data.filter fun c => !jsWhitespace c
  !cleaned.isEmpty && cleaned.all isB64ishChar &&
    (let decoded := decodeBase64Tolerant (String.mk cleaned)
     decoded ≠ "" && uriSchemes.any fun p => strIncludes decoded p)

/-- `SubscriptionParser.detectFormat` (branch structure and substring
tests verbatim from the source). -/
def detectFormat (raw : String) : String :=
  if (strIncludes raw "proxies:" &&
        (strIncludes raw "rules:" || strIncludes raw "proxy-groups:")) ||
      (strIncludes raw "port: " && strIncludes raw "mode: " &&
        strIncludes raw "proxies:") ||
      (strIncludes raw "- name:" && strIncludes raw "server:" &&
        strIncludes raw "port:" && strIncludes raw "type:") then "yaml"
  else if (jsonParse raw).isSome then "json"
  else if protocolUriPresent raw then "plain"
  else if detectBase64Envelope raw then "base64"
  else if strIncludes raw "Proxy:" ||
      (strIncludes raw "- name:" && strIncludes raw "type:") then "yaml"
  else "yaml"

/-- The node record `SubscriptionParser.normalize` emits (minus the
nondeterministic `id` and `extra.addedAt`, which no claim mentions). -/
structure NNode where
  type : String
  name : String
  server : String
  port : Option Int
  protocol : String
  settings : PSettings
  extraRaw : Option String
  deriving DecidableEq, Repr

/-- `SubscriptionParser.normalize`: keep candidates whose `type`,
`server` and `port` are truthy, then map to the canonical record with
`port: parseInt(node.port)` and the default display name
``` `${node.type}-${node.server}:${node.port}` ```. -/
def normalizeNodes (cands : List PNode) : List NNode :=
  (cands.filter fun n => n.type != "" && n.server != "" && portTruthy n.port
    ).map fun n =>
    { type := n.type
      name := if n.name = "" then
          n.type ++ "-" ++ n.server ++ ":" ++ portTemplate n.port
        else n.name
      server := n.server
      port := portParseInt n.port
      protocol := n.protocol
      settings := n.settings
      extraRaw := n.extraRaw }

/-- `SubscriptionParser.parse` restricted to payloads whose detected
format is `plain`: the selected parser is `PlainTextParser`, whose
`parse` never throws (it catches internally and returns `[]`), so the
backup-parser loop is unreachable and the result is exactly
`normalize(PlainTextParser.parse(raw))`. -/
def subscriptionParsePlain (raw : String) : Option (List NNode) :=
  if detectFormat raw = "plain" then some (normalizeNodes (plainParse raw))
  else none

/-- `Base64Parser.parseVless` (the base64-envelope decoder for
`vless://` lines; query fields default to `type=tcp`, `security=none`,
`encryption=none`, `path=/`, `sni=server`). -/
def base64ParseVless (line : String) : Option PNode :=
  match jsURL line with
  | none => none
  | some url =>
    match decodeURIComponentStr (hashBody url) with
    | none => none
    | some name =>
      let server := url.hostname
      let port : JsPort :=
        if url.port ≠ "" then .str url.port else .num (some 443)
      let gp : String → Option String := searchParamsGet url.query
      some
        { type := "vless"
          name := if name = "" then
              "VLESS " ++ server ++ ":" ++ portTemplate port
            else name
          server := server
          port := port
          protocol := "vless"
          settings := .vlessS url.username
            (jsOrStr (gp "type") "tcp")
            (jsOrStr (gp "security") "none")
            (jsOrStr (gp "sni") server)
            (jsOrStr (gp "fp") "")
            (jsOrStr (gp "alpn") "")
            (jsOrStr (gp "path") "/")
            (jsOrStr (gp "host") "")
            (jsOrStr (gp "encryption") "none")
            (jsOrStr (gp "flow") "")
          extraRaw := some line }

example : detectFormat "proxies:\nrules:\n" = "yaml" := by decide
example : detectFormat "vless://abc@example.com:443#n" = "plain" := by decide
example :
    detectFormat
        "ssr://ZXhhbXBsZS5jb206NzAwMDA6b3JpZ2luOmFlcy0xMjgtZ2NtOnBsYWluOmNHRnpjdz09"
      = "plain" := by decide

/-! ### Claim theorems for the parser pipeline -/

theorem parseVmessPlain_port {uri : String} {p : PNode}
    (h : parseVmessPlain uri = some p) : ∃ ov, p.port = JsPort.num ov := by
  rcases hj : jsonParse (decodeBase64Tolerant
      (strReplaceFirst uri "vmess://" "")) with _ | data
  · simp [parseVmessPlain, hj] at h
  · simp only [parseVmessPlain, hj] at h
    exact ⟨_, by rw [← Option.some.inj h]⟩

theorem ssShared_port {url : JsUrl} {uri : String} {p : PNode}
    (h : ssShared url uri = some p) : ∃ ov, p.port = JsPort.num ov := by
  rcases hd : decodeURIComponentStr (hashBody url) with _ | name
  · simp [ssShared, hd] at h
  · simp only [ssShared, hd] at h
    exact ⟨_, by rw [← Option.some.inj h]⟩

theorem parseShadowsocksPlain_port {uri : String} {p : PNode}
    (h : parseShadowsocksPlain uri = some p) :
    ∃ ov, p.port = JsPort.num ov := by
  unfold parseShadowsocksPlain at h
  split at h
  · exact ssShared_port h
  · split at h
    · exact absurd h (by simp)
    · exact ssShared_port h

theorem parseShadowsocksRPlain_port {uri : String} {p : PNode}
    (h : parseShadowsocksRPlain uri = some p) :
    ∃ ov, p.port = JsPort.num ov := by
  simp only [parseShadowsocksRPlain] at h
  split at h
  · exact absurd h (by simp)
  · exact ⟨_, by rw [← Option.some.inj h]⟩

theorem parseTrojanPlain_port {uri : String} {p : PNode}
    (h : parseTrojanPlain uri = some p) : ∃ ov, p.port = JsPort.num ov := by
  rcases hu : jsURL uri with _ | url
  · simp [parseTrojanPlain, hu] at h
  · rcases hd : decodeURIComponentStr (hashBody url) with _ | name
    · simp [parseTrojanPlain, hu, hd] at h
    · simp only [parseTrojanPlain, hu, hd] at h
      exact ⟨_, by rw [← Option.some.inj h]⟩

theorem parseHttpPlain_port {uri : String} {p : PNode}
    (h : parseHttpPlain uri = some p) : ∃ ov, p.port = JsPort.num ov := by
  rcases hu : jsURL uri with _ | url
  · simp [parseHttpPlain, hu] at h
  · rcases hd : decodeURIComponentStr (hashBody url) with _ | name
    · simp [parseHttpPlain, hu, hd] at h
    · simp only [parseHttpPlain, hu, hd] at h
      exact ⟨_, by rw [← Option.some.inj h]⟩

theorem parseSocksPlain_port {uri : String} {p : PNode}
    (h : parseSocksPlain uri = some p) : ∃ ov, p.port = JsPort.num ov := by
  unfold parseSocksPlain at h
  split at h
  · exact absurd h (by simp)
  · split at h
    · exact absurd h (by simp)
    · split at h
      · exact absurd h (by simp)
      · split at h
        · exact absurd h (by simp)
        · split at h
          · exact absurd h (by simp)
          · exact ⟨_, by rw [← Option.some.inj h]⟩

theorem parseLine_port {line : String} {p : PNode}
    (h : parseLine line = some p) : ∃ ov, p.port = JsPort.num ov := by
  unfold parseLine at h
  split at h
  · exact parseVmessPlain_port h
  · split at h
    · exact parseShadowsocksPlain_port h
    · split at h
      · exact parseShadowsocksRPlain_port h
      · split at h
        · exact parseTrojanPlain_port h
        · split at h
          · exact parseHttpPlain_port h
          · split at h
            · exact parseSocksPlain_port h
            · exact absurd h (by simp)

/-- **C1 (counterexample).**  The §3 invariant `1 ≤ port ≤ 65535` is
not enforced by `SubscriptionParser.normalize` (it only checks JS
truthiness of `type`/`server`/`port`): the `ssr://` payload advertising
`example.com:70000` is detected as plain, decoded, and returned by
`SubscriptionParser.parse` with port 70000 > 65535 instead of being
discarded. -/
theorem parse_port_range_counterexample :
    (subscriptionParsePlain
        "ssr://ZXhhbXBsZS5jb206NzAwMDA6b3JpZ2luOmFlcy0xMjgtZ2NtOnBsYWluOmNHRnpjdz09").map
        (List.map fun n => (n.server, n.port, n.protocol)) =
      some [("example.com", some (70000 : Int), "shadowsocksr")] ∧
    ¬((70000 : Int) ≤ 65535) := by
  exact ⟨by decide, by decide⟩

/-- **C1 (amended).**  Every node returned by `SubscriptionParser.parse`
on a plain-detected payload has a non-empty `server` and a nonzero
integer `port` (the truthiness checks of `normalize`); the upper bound
`port ≤ 65535`, positivity, and membership of `protocol` in a known set
are not checked — see the counterexample, where port 70000 survives. -/
theorem parse_plain_server_port :
    ∀ (raw : String) (out : List NNode),
      subscriptionParsePlain raw = some out →
      ∀ n ∈ out, n.server ≠ "" ∧ ∃ v, n.port = some v ∧ v ≠ 0 := by
  intro raw out h n hn
  unfold subscriptionParsePlain at h
  split at h
  · rw [← Option.some.inj h] at hn
    unfold normalizeNodes at hn
    obtain ⟨c, hc, hmap⟩ := List.mem_map.mp hn
    have hfil := List.mem_filter.mp hc
    have hpred := hfil.2
    simp only [Bool.and_eq_true, bne_iff_ne, ne_eq] at hpred
    obtain ⟨l, _, hpl⟩ := List.mem_filterMap.mp hfil.1
    obtain ⟨ov, hov⟩ := parseLine_port hpl
    have htr : portTruthy c.port = true := hpred.2
    rw [hov] at htr
    cases ov with
    | none => simp [portTruthy] at htr
    | some v =>
      have hv : v ≠ 0 := by simpa [portTruthy] using htr
      refine ⟨?_, v, ?_, hv⟩
      · rw [← hmap]
        exact hpred.1.2
      · rw [← hmap]
        show portParseInt c.port = some v
        rw [hov]
        rfl
  · exact absurd h (by simp)

/-- Witness for `parse_plain_server_port` at the `ssr://` payload of the
counterexample. -/
theorem parse_plain_server_port_witness :
    (⟨"ssr", "ssr-example.com:70000", "example.com", some 70000,
        "shadowsocksr", .ssrS "aes-128-gcm" "pass" "origin" "" "plain" "",
        some "ssr://ZXhhbXBsZS5jb206NzAwMDA6b3JpZ2luOmFlcy0xMjgtZ2NtOnBsYWluOmNHRnpjdz09"⟩ :
      NNode).server ≠ "" ∧
    ∃ v, (⟨"ssr", "ssr-example.com:70000", "example.com", some 70000,
        "shadowsocksr", .ssrS "aes-128-gcm" "pass" "origin" "" "plain" "",
        some "ssr://ZXhhbXBsZS5jb206NzAwMDA6b3JpZ2luOmFlcy0xMjgtZ2NtOnBsYWluOmNHRnpjdz09"⟩ :
      NNode).port = some v ∧ v ≠ 0 :=
  parse_plain_server_port
    "ssr://ZXhhbXBsZS5jb206NzAwMDA6b3JpZ2luOmFlcy0xMjgtZ2NtOnBsYWluOmNHRnpjdz09"
    [⟨"ssr", "ssr-example.com:70000", "example.com", some 70000,
        "shadowsocksr", .ssrS "aes-128-gcm" "pass" "origin" "" "plain" "",
        some "ssr://ZXhhbXBsZS5jb206NzAwMDA6b3JpZ2luOmFlcy0xMjgtZ2NtOnBsYWluOmNHRnpjdz09"⟩]
    (by decide)
    ⟨"ssr", "ssr-example.com:70000", "example.com", some 70000,
        "shadowsocksr", .ssrS "aes-128-gcm" "pass" "origin" "" "plain" "",
        some "ssr://ZXhhbXBsZS5jb206NzAwMDA6b3JpZ2luOmFlcy0xMjgtZ2NtOnBsYWluOmNHRnpjdz09"⟩
    (by decide)

/-- **C5 (counterexample).**  The plain-text trojan decoder — the one
the format detector routes a raw `trojan://` payload to — does **no**
pre-encoding and **no** percent-decoding of the password: it takes
`url.username` verbatim.  On the claimed input the WHATWG URL parser
percent-encodes the in-userinfo `@`, so `settings.password` is
`"p%40ss%21"`, not the claimed `"p@ss!"` (all other claimed fields do
hold). -/
theorem trojan_password_counterexample :
    parseTrojanPlain "trojan://p@ss%21@host.example:443?sni=h.example#My%20Node" =
      some
        { type := "trojan", name := "My Node", server := "host.example"
          port := .num (some 443), protocol := "trojan"
          settings := .trojanS "p%40ss%21" "h.example" false
          extraRaw :=
            some "trojan://p@ss%21@host.example:443?sni=h.example#My%20Node" } ∧
    ("p%40ss%21" : String) ≠ "p@ss!" := by
  exact ⟨by decide, by decide⟩

/-- **C5 (amended).**  Through the full pipeline
(`detectFormat = plain`, `PlainTextParser.parseTrojan`,
`SubscriptionParser.normalize`), the input
`trojan://p@ss%21@host.example:443?sni=h.example#My%20Node` yields one
node with protocol `trojan`, server `host.example`, port 443,
`settings.sni "h.example"` and display name `"My Node"` as claimed, but
`settings.password` is the still-percent-encoded URL username
`"p%40ss%21"` — the decoder never percent-decodes it. -/
theorem trojan_special_chars_amended :
    subscriptionParsePlain
        "trojan://p@ss%21@host.example:443?sni=h.example#My%20Node" =
      some
        [{ type := "trojan", name := "My Node", server := "host.example"
           port := some 443, protocol := "trojan"
           settings := .trojanS "p%40ss%21" "h.example" false
           extraRaw :=
             some "trojan://p@ss%21@host.example:443?sni=h.example#My%20Node" }] := by
  decide

/-- **C6 (counterexample).**  A payload consisting of a single
well-formed `vless://` URI is detected as a plain URI list, but
`PlainTextParser.parseLine` has no `vless://` branch: the parse
succeeds with **zero** nodes instead of decoding the line. -/
theorem plain_vless_counterexample :
    detectFormat
        "vless://b831381d-6324-4d53-ad4f-8cda48b30811@example.com:443?type=ws&security=tls#Test"
      = "plain" ∧
    subscriptionParsePlain
        "vless://b831381d-6324-4d53-ad4f-8cda48b30811@example.com:443?type=ws&security=tls#Test"
      = some [] := by
  exact ⟨by decide, by decide⟩

/-- **C6 (amended).**  Every `vless://` line in a plain-detected payload
is dropped (`parseLine` returns `null` for it); only the base64-envelope
path decodes `vless://`, with the claimed defaults `type=tcp`,
`security=none` when those query fields are absent
(`Base64Parser.parseVless`). -/
theorem plain_vless_dropped_amended :
    (∀ line : String, strStartsWith line "vless://" = true →
      parseLine line = none) ∧
    base64ParseVless
        "vless://b831381d-6324-4d53-ad4f-8cda48b30811@example.com:443#Test" =
      some
        { type := "vless", name := "Test", server := "example.com"
          port := .str "443", protocol := "vless"
          settings := .vlessS "b831381d-6324-4d53-ad4f-8cda48b30811" "tcp"
            "none" "example.com" "" "" "/" "" "none" ""
          extraRaw :=
            some "vless://b831381d-6324-4d53-ad4f-8cda48b30811@example.com:443#Test" } := by
  constructor
  · intro line h
    have hpre : "vless://".data.isPrefixOf line.data = true := h
    rw [List.isPrefixOf_iff_prefix] at hpre
    obtain ⟨t, ht⟩ := hpre
    unfold parseLine strStartsWith
    rw [← ht]
    rfl
  · decide

/-- Witness for `plain_vless_dropped_amended` at a concrete line. -/
theorem plain_vless_dropped_amended_witness :
    parseLine "vless://abc@example.com:443#n" = none :=
  plain_vless_dropped_amended.1 "vless://abc@example.com:443#n" (by decide)
